import Mathlib

/-!
Verification of the PolymarketBot runtime decision engine against its
natural-language specification.  The Python source is shallowly embedded:
Python floats are modelled as rationals, dicts as insertion-ordered
association lists, and the wall clock is passed explicitly.  Transcendental
functions (math.sqrt, math.erf, float powers) are abstracted as parameters,
since the claims under study never depend on their numeric values beyond
sign information, which is carried as explicit hypotheses.
-/

namespace PolymarketBot

/-- Insertion-ordered association list lookup, modelling Python `dict.get`. -/
def aget {κ α : Type} [DecidableEq κ] (m : List (κ × α)) (k : κ) : Option α :=
  (m.find? (fun p => p.1 = k)).map (fun p => p.2)

/-- Insertion-ordered association list assignment, modelling Python
`dict[k] = v`: replace in place when the key exists, append otherwise. -/
def aset {κ α : Type} [DecidableEq κ] (m : List (κ × α)) (k : κ) (v : α) : List (κ × α) :=
  if m.any (fun p => p.1 = k) then
    m.map (fun p => if p.1 = k then (k, v) else p)
  else
    m ++ [(k, v)]

/-- Association list deletion, modelling Python `dict.pop(k, None)`. -/
def aerase {κ α : Type} [DecidableEq κ] (m : List (κ × α)) (k : κ) : List (κ × α) :=
  m.filter (fun p => ¬ p.1 = k)

/-- Sum of the values of an association list, modelling
Python `sum(d.values())`. -/
def sumVals {κ : Type} (m : List (κ × ℚ)) : ℚ :=
  (m.map (fun p => p.2)).sum

/-- Python `int(x)` on a float: truncation toward zero. -/
def pyInt (q : ℚ) : ℤ :=
  if 0 ≤ q then q.floor else q.ceil

/-- Python integer floor division `a // b` (b positive in all call sites). -/
def pyFloorDiv (a b : ℤ) : ℤ :=
  Int.fdiv a b

/-- A value of a Python `deque(maxlen=n)` after an append: the leftmost
element is dropped when the deque is full. -/
def dequeAppend {α : Type} (maxlen : ℕ) (l : List α) (x : α) : List α :=
  let l := l ++ [x]
  if maxlen < l.length then l.drop (l.length - maxlen) else l

/-! ## String helpers

Python string operations re-implemented structurally over character lists,
so that every definition reduces in the kernel (the built-in String
operations recurse over byte positions and do not). -/

/-- Split a character list at every occurrence of a separator character.
Mirrors Python `s.split(sep)` for a one-character separator. -/
def splitOnCharAux (sep : Char) : List Char → List Char → List (List Char)
  | [], acc => [acc.reverse]
  | c :: rest, acc =>
    if c = sep then acc.reverse :: splitOnCharAux sep rest []
    else splitOnCharAux sep rest (c :: acc)

def pySplitChar (sep : Char) (s : String) : List String :=
  (splitOnCharAux sep s.data []).map (fun l => String.mk l)

def joinWithChar (sep : Char) : List String → String
  | [] => ""
  | [s] => s
  | s :: rest => s ++ String.mk [sep] ++ joinWithChar sep rest

/-- Python `needle in haystack` for strings. -/
def listContainsSeq (needle : List Char) : List Char → Bool
  | [] => needle.isPrefixOf []
  | c :: rest => needle.isPrefixOf (c :: rest) || listContainsSeq needle rest

def strContains (haystack needle : String) : Bool :=
  listContainsSeq needle.data haystack.data

def strStarts (s pre : String) : Bool :=
  pre.data.isPrefixOf s.data

def strDropN (s : String) (n : ℕ) : String :=
  String.mk (s.data.drop n)

def strLower (s : String) : String :=
  String.mk (s.data.map Char.toLower)

def strUpper (s : String) : String :=
  String.mk (s.data.map Char.toUpper)

/-- Python `str.strip()` (whitespace on both ends). -/
def strStrip (s : String) : String :=
  String.mk (((s.data.dropWhile Char.isWhitespace).reverse.dropWhile
    Char.isWhitespace).reverse)

def digitsToNat (l : List Char) : ℕ :=
  l.foldl (fun n c => n * 10 + (c.toNat - 48)) 0

/-- Python `int(text)` on a string: an optional sign followed by at least
one digit. -/
def listToInt? (l : List Char) : Option ℤ :=
  match l with
  | [] => none
  | '-' :: rest =>
    if rest ≠ [] ∧ rest.all Char.isDigit then some (-(digitsToNat rest : ℤ)) else none
  | '+' :: rest =>
    if rest ≠ [] ∧ rest.all Char.isDigit then some ((digitsToNat rest : ℤ)) else none
  | _ =>
    if l.all Char.isDigit then some ((digitsToNat l : ℤ)) else none

def strToInt? (s : String) : Option ℤ :=
  listToInt? s.data

/-- Decimal representation of an integer (for f-string interpolation of
epoch values). -/
def intToStr (n : ℤ) : String :=
  toString n

/-! ## Risk ledger (src/execution/trader.py)

The persisted `RiskState` dataclass, with Python floats as rationals and the
`open_exposure_usd_by_market` dict as an insertion-ordered association list. -/

structure RiskState where
  daily_realized_pnl : ℚ := 0
  trades_this_hour : ℤ := 0
  last_trade_hour : ℤ := -1
  last_pnl_reset_date_utc : String := ""
  open_exposure_usd_by_market : List (String × ℚ) := []
  total_open_notional_usd : ℚ := 0
  trades_since_reconcile : ℤ := 0
  cumulative_realized_pnl : ℚ := 0
  consecutive_losses : ℤ := 0
  cooldown_until_ts : ℚ := 0
  peak_equity_usd : ℚ := 0
deriving Repr, DecidableEq

/-- Trader._market_identity: a slug wins over a start epoch; Python
truthiness makes the empty slug fall through. -/
def marketIdentity (market_slug : Option String) (market_start_epoch : Option ℤ) : String :=
  match market_slug with
  | some s =>
    if s = "" then
      match market_start_epoch with
      | some e => "start:" ++ intToStr e
      | none => "legacy"
    else "slug:" ++ s
  | none =>
    match market_start_epoch with
    | some e => "start:" ++ intToStr e
    | none => "legacy"

/-- Trader._market_exposure_key: `token_id|horizon|DIRECTION|identity`. -/
def marketExposureKey (token_id horizon direction : String)
    (market_slug : Option String) (market_start_epoch : Option ℤ) : String :=
  token_id ++ "|" ++ horizon ++ "|" ++ strUpper direction ++ "|" ++
    marketIdentity market_slug market_start_epoch

/-- Trader._parse_horizon_minutes: strip whitespace, lowercase, drop a
trailing `m`, parse an int, require it positive. -/
def parseHorizonMinutes (horizon : String) : Option ℤ :=
  match strToInt?
      (if (strLower (strStrip horizon)).data.getLast? = some 'm' then
        String.mk (strLower (strStrip horizon)).data.dropLast
      else strLower (strStrip horizon)) with
  | none => none
  | some n => if 0 < n then some n else none

/-- Match of the market-slug regular expression
`btc-updown-(\d+)m-(\d+)`, returning (horizon minutes, start epoch). -/
def slugMatch (s : String) : Option (ℤ × ℤ) :=
  if strStarts s "btc-updown-" then
    match (s.data.drop 11).takeWhile Char.isDigit,
        (s.data.drop 11).dropWhile Char.isDigit with
    | [], _ => none
    | hdigits, 'm' :: '-' :: sdigits =>
      if sdigits ≠ [] ∧ sdigits.all Char.isDigit then
        some ((digitsToNat hdigits : ℤ), (digitsToNat sdigits : ℤ))
      else none
    | _, _ => none
  else none

/-- Trader._infer_market_end_epoch: decode `slug:...` or `start:...`
identities into an end epoch. -/
def inferMarketEndEpoch (horizon market_identity : String) : Option ℤ :=
  match slugMatch
      (if strStarts market_identity "slug:" then strDropN market_identity 5
       else market_identity) with
  | some (h, st) => some (st + h * 60)
  | none =>
    if strStarts (if strStarts market_identity "slug:" then strDropN market_identity 5
        else market_identity) "start:" then
      match strToInt? (strDropN
          (if strStarts market_identity "slug:" then strDropN market_identity 5
           else market_identity) 6) with
      | none => none
      | some st =>
        match parseHorizonMinutes horizon with
        | none => none
        | some hm => some (st + hm * 60)
    else none

/-- Python `key.split("|", 3)`: at most three splits, the fourth part keeps
any further separators. -/
def splitKeyMax3 (s : String) : List String :=
  if (pySplitChar '|' s).length ≤ 4 then pySplitChar '|' s
  else (pySplitChar '|' s).take 3 ++ [joinWithChar '|' ((pySplitChar '|' s).drop 3)]

/-- Whether Trader._cleanup_expired_exposure removes the given key at time
`now`: the key has the four-part form and its inferred end epoch is ≤ now. -/
def exposureKeyExpired (now : ℤ) (key : String) : Bool :=
  match splitKeyMax3 key with
  | [_tok, horizon, _dir, ident] =>
    match inferMarketEndEpoch horizon ident with
    | some e => e ≤ now
    | none => false
  | _ => false

/-- Trader._cleanup_expired_exposure: purge expired keys; recompute the
total only when something was removed.  Returns (state, removed). -/
def cleanupExpiredExposure (s : RiskState) (now : ℤ) : RiskState × Bool :=
  if s.open_exposure_usd_by_market = [] then (s, false)
  else if s.open_exposure_usd_by_market.any (fun kv => exposureKeyExpired now kv.1) then
    ({ s with
        open_exposure_usd_by_market :=
          s.open_exposure_usd_by_market.filter (fun kv => ¬ exposureKeyExpired now kv.1),
        total_open_notional_usd :=
          max 0 (sumVals
            (s.open_exposure_usd_by_market.filter (fun kv => ¬ exposureKeyExpired now kv.1))) },
      true)
  else (s, false)

/-- Map part of Trader._apply_open_exposure_delta: clamp the touched
bucket at zero and drop it when it reaches zero. -/
def applyOpenExposureDeltaMap (m : List (String × ℚ)) (key : String) (delta_usd : ℚ) :
    List (String × ℚ) :=
  if max 0 ((aget m key).getD 0 + delta_usd) = 0 then aerase m key
  else aset m key (max 0 ((aget m key).getD 0 + delta_usd))

def applyOpenExposureDelta (s : RiskState) (token_id horizon direction : String)
    (delta_usd : ℚ) (market_slug : Option String) (market_start_epoch : Option ℤ) :
    RiskState :=
  if delta_usd = 0 then s
  else
    { s with
        open_exposure_usd_by_market :=
          applyOpenExposureDeltaMap s.open_exposure_usd_by_market
            (marketExposureKey token_id horizon direction market_slug market_start_epoch)
            delta_usd,
        total_open_notional_usd :=
          max 0 (sumVals (applyOpenExposureDeltaMap s.open_exposure_usd_by_market
            (marketExposureKey token_id horizon direction market_slug market_start_epoch)
            delta_usd)) }

/-- One exchange position row after the field extraction in
Trader._maybe_reconcile_exposure_from_exchange (rows that fail extraction
produce nothing and are modelled as absent). -/
structure ExchangePosition where
  token_id : String
  horizon : String
  direction : String
  notional : ℚ
  market_slug : Option String
  market_start_epoch : Option ℤ
deriving Repr, DecidableEq

/-- Trader._maybe_reconcile_exposure_from_exchange: bump the reconcile
counter, and when due and a position payload is available, rebuild the
exposure map from the rows (absolute notionals, later rows overwriting
earlier ones with the same key), set the total to the rebuilt sum, purge
expired keys, and reset the counter.  `positions = none` models a missing
client, a missing positions method, or a raising one. -/
def rebuildExposureMap (rows : List ExchangePosition) : List (String × ℚ) :=
  rows.foldl
    (fun m p => aset m
      (marketExposureKey p.token_id p.horizon p.direction p.market_slug p.market_start_epoch)
      |p.notional|) []

/-- Rebuild branch of Trader._maybe_reconcile_exposure_from_exchange:
overwrite the exposure map from the position rows, set the total to the
rebuilt sum, purge expired keys, reset the reconcile counter. -/
def reconcileRebuild (s : RiskState) (rows : List ExchangePosition) (now : ℤ) : RiskState :=
  { (cleanupExpiredExposure
      { s with open_exposure_usd_by_market := rebuildExposureMap rows,
               total_open_notional_usd := sumVals (rebuildExposureMap rows) } now).1
    with trades_since_reconcile := 0 }

def reconcileExposure (s : RiskState) (positions : Option (List ExchangePosition))
    (force : Bool) (every_n_trades : ℤ) (now : ℤ) : RiskState :=
  if ¬ force ∧ s.trades_since_reconcile + 1 < every_n_trades then
    { s with trades_since_reconcile := s.trades_since_reconcile + 1 }
  else
    match positions with
    | none => { s with trades_since_reconcile := s.trades_since_reconcile + 1 }
    | some rows => reconcileRebuild s rows now

/-- Trader._migrate_legacy_exposure_key: 3-part keys get a `|legacy`
suffix; everything else is unchanged. -/
def migrateLegacyExposureKey (key : String) : String :=
  match pySplitChar '|' key with
  | [t, h, d] => t ++ "|" ++ h ++ "|" ++ d ++ "|legacy"
  | _ => key

/-- Trader._normalize_open_exposure: clamp each parseable value at zero
(note: the clamped amount may be zero and is still stored), migrate legacy
keys, and accumulate amounts that land on the same migrated key.  Entries
whose value fails float() are modelled as `none` and skipped. -/
def normalizeOpenExposure (raw : List (String × Option ℚ)) : List (String × ℚ) :=
  raw.foldl
    (fun acc kv =>
      match kv.2 with
      | none => acc
      | some v =>
        let amount := max 0 v
        let k := migrateLegacyExposureKey kv.1
        aset acc k ((aget acc k).getD 0 + amount))
    []

/-- The three risk-ledger mutations named by the specification. -/
inductive RiskMutation where
  | applyDelta (token_id horizon direction : String) (delta_usd : ℚ)
      (market_slug : Option String) (market_start_epoch : Option ℤ)
  | cleanup (now : ℤ)
  | reconcile (positions : Option (List ExchangePosition)) (force : Bool)
      (every_n_trades now : ℤ)
deriving Repr

/-- Apply one risk-ledger mutation. -/
def riskStep (s : RiskState) : RiskMutation → RiskState
  | .applyDelta t h d δ slug ep => applyOpenExposureDelta s t h d δ slug ep
  | .cleanup now => (cleanupExpiredExposure s now).1
  | .reconcile ps force n now => reconcileExposure s ps force n now

/-- Every exposure bucket is non-negative. -/
def exposureNonneg (s : RiskState) : Prop :=
  ∀ kv ∈ s.open_exposure_usd_by_market, 0 ≤ kv.2

/-- The persisted total equals the sum of the exposure map. -/
def totalMatchesSum (s : RiskState) : Prop :=
  s.total_open_notional_usd = sumVals s.open_exposure_usd_by_market

theorem sumVals_nonneg {κ : Type} {m : List (κ × ℚ)} (h : ∀ kv ∈ m, 0 ≤ kv.2) :
    0 ≤ sumVals m := by
  apply List.sum_nonneg
  intro x hx
  rcases List.mem_map.mp hx with ⟨p, hp, hpx⟩
  exact hpx ▸ h p hp

theorem mem_aset_cases {κ α : Type} [DecidableEq κ] {m : List (κ × α)} {k : κ} {v : α}
    {kv : κ × α} (h : kv ∈ aset m k v) : kv = (k, v) ∨ kv ∈ m := by
  unfold aset at h
  split at h
  · rcases List.mem_map.mp h with ⟨p, hp, hfp⟩
    by_cases hk : p.1 = k
    · left
      rw [if_pos hk] at hfp
      exact hfp.symm
    · right
      rw [if_neg hk] at hfp
      exact hfp ▸ hp
  · rcases List.mem_append.mp h with hm | hm
    · exact Or.inr hm
    · exact Or.inl (List.mem_singleton.mp hm)

theorem nonneg_aset {κ : Type} [DecidableEq κ] {m : List (κ × ℚ)} {k : κ} {v : ℚ}
    (hm : ∀ kv ∈ m, 0 ≤ kv.2) (hv : 0 ≤ v) :
    ∀ kv ∈ aset m k v, 0 ≤ kv.2 := by
  intro kv hkv
  rcases mem_aset_cases hkv with h | h
  · rw [h]; exact hv
  · exact hm kv h

theorem nonneg_filter {κ : Type} {m : List (κ × ℚ)} {p : κ × ℚ → Bool}
    (hm : ∀ kv ∈ m, 0 ≤ kv.2) :
    ∀ kv ∈ m.filter p, 0 ≤ kv.2 := by
  intro kv hkv
  exact hm kv (List.mem_filter.mp hkv).1

/-- Invariant preservation for Trader._cleanup_expired_exposure. -/
theorem cleanup_preserves (s : RiskState) (now : ℤ)
    (h : exposureNonneg s ∧ totalMatchesSum s) :
    exposureNonneg (cleanupExpiredExposure s now).1 ∧
      totalMatchesSum (cleanupExpiredExposure s now).1 := by
  unfold cleanupExpiredExposure
  split
  · exact h
  · split
    · constructor
      · intro kv hkv
        exact nonneg_filter h.1 kv hkv
      · show max 0 (sumVals _) = sumVals _
        exact max_eq_right (sumVals_nonneg (nonneg_filter h.1))
    · exact h

theorem applyDeltaMap_nonneg {m : List (String × ℚ)} {key : String} {δ : ℚ}
    (hm : ∀ kv ∈ m, 0 ≤ kv.2) :
    ∀ kv ∈ applyOpenExposureDeltaMap m key δ, 0 ≤ kv.2 := by
  unfold applyOpenExposureDeltaMap
  split
  · intro kv hkv
    exact hm kv (List.mem_filter.mp hkv).1
  · exact nonneg_aset hm (le_max_left 0 _)

/-- Invariant preservation for Trader._apply_open_exposure_delta. -/
theorem applyDelta_preserves (s : RiskState) (t h d : String) (δ : ℚ)
    (slug : Option String) (ep : Option ℤ)
    (hs : exposureNonneg s ∧ totalMatchesSum s) :
    exposureNonneg (applyOpenExposureDelta s t h d δ slug ep) ∧
      totalMatchesSum (applyOpenExposureDelta s t h d δ slug ep) := by
  unfold applyOpenExposureDelta
  split
  · exact hs
  · exact ⟨applyDeltaMap_nonneg hs.1,
      max_eq_right (sumVals_nonneg (applyDeltaMap_nonneg hs.1))⟩

theorem rebuilt_nonneg (rows : List ExchangePosition) :
    ∀ kv ∈ rebuildExposureMap rows, 0 ≤ kv.2 := by
  have main : ∀ (l : List ExchangePosition) (acc : List (String × ℚ)),
      (∀ kv ∈ acc, 0 ≤ kv.2) →
      ∀ kv ∈ l.foldl
        (fun m p => aset m
          (marketExposureKey p.token_id p.horizon p.direction p.market_slug p.market_start_epoch)
          |p.notional|) acc, 0 ≤ kv.2 := by
    intro l
    induction l with
    | nil => intro acc hacc kv hkv; exact hacc kv hkv
    | cons r rest ih =>
      intro acc hacc kv hkv
      exact ih _ (nonneg_aset hacc (abs_nonneg r.notional)) kv hkv
  exact main rows [] (by intro kv hkv; cases hkv)

theorem reconcileRebuild_preserves (s : RiskState) (rows : List ExchangePosition) (now : ℤ) :
    exposureNonneg (reconcileRebuild s rows now) ∧
      totalMatchesSum (reconcileRebuild s rows now) := by
  have hmid := cleanup_preserves
    { s with open_exposure_usd_by_market := rebuildExposureMap rows,
             total_open_notional_usd := sumVals (rebuildExposureMap rows) }
    now ⟨rebuilt_nonneg rows, rfl⟩
  exact hmid

/-- Invariant preservation for Trader._maybe_reconcile_exposure_from_exchange. -/
theorem reconcile_preserves (s : RiskState) (ps : Option (List ExchangePosition))
    (force : Bool) (n now : ℤ)
    (hs : exposureNonneg s ∧ totalMatchesSum s) :
    exposureNonneg (reconcileExposure s ps force n now) ∧
      totalMatchesSum (reconcileExposure s ps force n now) := by
  unfold reconcileExposure
  split
  · exact hs
  · match ps with
    | none => exact hs
    | some rows => exact reconcileRebuild_preserves s rows now

/-- Invariant preservation for one risk-ledger mutation. -/
theorem riskStep_preserves (s : RiskState) (m : RiskMutation)
    (hs : exposureNonneg s ∧ totalMatchesSum s) :
    exposureNonneg (riskStep s m) ∧ totalMatchesSum (riskStep s m) := by
  cases m with
  | applyDelta t h d δ slug ep => exact applyDelta_preserves s t h d δ slug ep hs
  | cleanup now => exact cleanup_preserves s now hs
  | reconcile ps force n now => exact reconcile_preserves s ps force n now hs

/-- C1: for every sequence of risk-ledger mutations (open-exposure deltas,
expired-exposure purges, exchange reconciliations) started from a ledger
whose total matches its exposure map and whose buckets are non-negative,
the field total_open_notional_usd equals the sum of the values of
open_exposure_usd_by_market after every mutation (every prefix of the
sequence is itself a sequence, so this states the invariant after each
step). -/
theorem c1_total_matches_sum_after_every_mutation
    (s : RiskState) (muts : List RiskMutation)
    (h0 : exposureNonneg s) (h1 : totalMatchesSum s) :
    totalMatchesSum (muts.foldl riskStep s) ∧ exposureNonneg (muts.foldl riskStep s) := by
  have main : ∀ (l : List RiskMutation) (t : RiskState),
      exposureNonneg t ∧ totalMatchesSum t →
      exposureNonneg (l.foldl riskStep t) ∧ totalMatchesSum (l.foldl riskStep t) := by
    intro l
    induction l with
    | nil => intro t ht; exact ht
    | cons m rest ih =>
      intro t ht
      exact ih (riskStep t m) (riskStep_preserves t m ht)
  have := main muts s ⟨h0, h1⟩
  exact ⟨this.2, this.1⟩

/-- Concrete mutation sequence exercising all three mutation kinds. -/
def c1SampleMutations : List RiskMutation :=
  [RiskMutation.applyDelta "tok" "5" "buy" 25 (some "btc-updown-5m-600") none,
   RiskMutation.applyDelta "tok" "5" "buy" (-10) (some "btc-updown-5m-600") none,
   RiskMutation.cleanup 1000,
   RiskMutation.reconcile
     (some [{ token_id := "tok2", horizon := "15", direction := "BUY",
              notional := -7, market_slug := none, market_start_epoch := some 0 }])
     true 10 100]

/-- Witness for C1 at a concrete ledger and mutation sequence. -/
theorem c1_total_matches_sum_after_every_mutation_witness :
    totalMatchesSum (List.foldl riskStep ({} : RiskState) c1SampleMutations) :=
  (c1_total_matches_sum_after_every_mutation ({} : RiskState) c1SampleMutations
    (by intro kv hkv; cases hkv) rfl).1

theorem aget_mem_of_eq_some {κ α : Type} [DecidableEq κ] {m : List (κ × α)} {k : κ} {v : α}
    (h : aget m k = some v) : ∃ p ∈ m, p.2 = v := by
  unfold aget at h
  rcases Option.map_eq_some'.mp h with ⟨p, hp, hpv⟩
  exact ⟨p, List.mem_of_find?_eq_some hp, hpv⟩

theorem aget_getD_nonneg {m : List (String × ℚ)} {k : String}
    (hm : ∀ kv ∈ m, 0 ≤ kv.2) : 0 ≤ (aget m k).getD 0 := by
  cases hv : aget m k with
  | none => simp
  | some v =>
    rcases aget_mem_of_eq_some hv with ⟨p, hp, hpv⟩
    simpa [hpv] using hm p hp

theorem normalize_values_nonneg (raw : List (String × Option ℚ)) :
    ∀ kv ∈ normalizeOpenExposure raw, 0 ≤ kv.2 := by
  have main : ∀ (l : List (String × Option ℚ)) (acc : List (String × ℚ)),
      (∀ kv ∈ acc, 0 ≤ kv.2) →
      ∀ kv ∈ l.foldl
        (fun acc kv =>
          match kv.2 with
          | none => acc
          | some v =>
            aset acc (migrateLegacyExposureKey kv.1)
              ((aget acc (migrateLegacyExposureKey kv.1)).getD 0 + max 0 v)) acc,
        0 ≤ kv.2 := by
    intro l
    induction l with
    | nil => intro acc hacc kv hkv; exact hacc kv hkv
    | cons r rest ih =>
      intro acc hacc kv hkv
      cases hr : r.2 with
      | none =>
        rw [List.foldl_cons, hr] at hkv
        exact ih acc hacc kv hkv
      | some v =>
        rw [List.foldl_cons, hr] at hkv
        refine ih _ (nonneg_aset hacc ?_) kv hkv
        exact add_nonneg (aget_getD_nonneg hacc) (le_max_left 0 v)
  exact main raw [] (by intro kv hkv; cases hkv)

/-- C9 (amended): normalizing persisted exposure yields non-negative (not
necessarily strictly positive) bucket values; applying any delta keeps all
buckets non-negative, stores the touched bucket only when strictly positive
(so any zero bucket in the result was already present before the delta),
and leaves the total ≥ 0; purging expired entries keeps buckets
non-negative and the total ≥ 0.  A negative delta can never drive a bucket
or the total below zero. -/
theorem c9_exposure_nonneg_amended :
    (∀ raw : List (String × Option ℚ), ∀ kv ∈ normalizeOpenExposure raw, 0 ≤ kv.2)
    ∧ (∀ (s : RiskState) (t h d : String) (δ : ℚ) (slug : Option String) (ep : Option ℤ),
        exposureNonneg s → 0 ≤ s.total_open_notional_usd →
        (∀ kv ∈ (applyOpenExposureDelta s t h d δ slug ep).open_exposure_usd_by_market,
            kv ∈ s.open_exposure_usd_by_market ∨ 0 < kv.2)
        ∧ exposureNonneg (applyOpenExposureDelta s t h d δ slug ep)
        ∧ 0 ≤ (applyOpenExposureDelta s t h d δ slug ep).total_open_notional_usd)
    ∧ (∀ (s : RiskState) (now : ℤ), exposureNonneg s → 0 ≤ s.total_open_notional_usd →
        exposureNonneg (cleanupExpiredExposure s now).1
        ∧ 0 ≤ (cleanupExpiredExposure s now).1.total_open_notional_usd) := by
  refine ⟨normalize_values_nonneg, ?_, ?_⟩
  · intro s t h d δ slug ep hs htot
    unfold applyOpenExposureDelta
    split
    · exact ⟨fun kv hkv => Or.inl hkv, hs, htot⟩
    · refine ⟨?_, applyDeltaMap_nonneg hs, le_max_left 0 _⟩
      intro kv hkv
      unfold applyOpenExposureDeltaMap at hkv
      split at hkv
      · exact Or.inl (List.mem_filter.mp hkv).1
      · rename_i hupd
        rcases mem_aset_cases hkv with hkv | hkv
        · right
          rw [hkv]
          exact lt_of_le_of_ne (le_max_left 0 _) (Ne.symm hupd)
        · exact Or.inl hkv
  · intro s now hs htot
    unfold cleanupExpiredExposure
    split
    · exact ⟨hs, htot⟩
    · split
      · exact ⟨fun kv hkv => hs kv (List.mem_filter.mp hkv).1, le_max_left 0 _⟩
      · exact ⟨hs, htot⟩

/-- Witness for C9 (amended) at concrete inputs, including a negative delta
that would otherwise drive the only bucket below zero. -/
theorem c9_exposure_nonneg_amended_witness :
    exposureNonneg (applyOpenExposureDelta ({} : RiskState) "tok" "5" "buy" (-4) none none)
    ∧ 0 ≤ (applyOpenExposureDelta ({} : RiskState) "tok" "5" "buy" (-4)
        none none).total_open_notional_usd := by
  have h := c9_exposure_nonneg_amended.2.1 ({} : RiskState) "tok" "5" "buy" (-4) none none
    (by intro kv hkv; cases hkv) (le_refl 0)
  exact ⟨h.2.1, h.2.2⟩

/-- Counterexample to C9 as stated: normalizing a persisted map with a
negative value clamps it to zero but keeps the zero bucket, so not every
value of open_exposure_usd_by_market is strictly positive after
load/normalize. -/
theorem c9_counterexample_zero_bucket_after_normalize :
    normalizeOpenExposure [("a|1|B|legacy", some (-5))] = [("a|1|B|legacy", 0)]
    ∧ ∃ kv, kv ∈ normalizeOpenExposure [("a|1|B|legacy", some (-5))] ∧ ¬ (0 < kv.2) := by
  have h1 : migrateLegacyExposureKey "a|1|B|legacy" = "a|1|B|legacy" := by decide
  have h2 : (aget ([] : List (String × ℚ)) "a|1|B|legacy").getD 0 + max 0 (-5 : ℚ) = 0 := by
    norm_num [aget]
  have heq : normalizeOpenExposure [("a|1|B|legacy", some (-5))] = [("a|1|B|legacy", 0)] := by
    simp only [normalizeOpenExposure, List.foldl_cons, List.foldl_nil, h1, h2]
    simp [aset]
  refine ⟨heq, ("a|1|B|legacy", 0), ?_, by norm_num⟩
  rw [heq]
  exact List.mem_singleton.mpr rfl

/-! ## Persistence model (Trader._persist_risk_state)

A file system is a map from paths to byte contents; a write replaces the
target's contents; a rename atomically moves contents.  An interrupted run
executes a prefix of the operations and leaves the interrupted write with a
prefix of its bytes. -/

inductive FileOp where
  | write (path : String) (data : List ℕ)
  | rename (src dst : String)
deriving Repr, DecidableEq

def applyFileOp (fs : String → Option (List ℕ)) : FileOp → (String → Option (List ℕ))
  | .write p d => fun q => if q = p then some d else fs q
  | .rename src dst => fun q => if q = src then none else if q = dst then fs src else fs q

def runFileOps (fs : String → Option (List ℕ)) (ops : List FileOp) :
    String → Option (List ℕ) :=
  ops.foldl applyFileOp fs

/-- Run the first `k` operations, then interrupt the next one: an
interrupted write leaves the first `j` bytes; a rename is atomic, so an
interruption leaves it unapplied. -/
def runFileOpsInterrupted (fs : String → Option (List ℕ)) (ops : List FileOp) (k j : ℕ) :
    String → Option (List ℕ) :=
  match ops.drop k with
  | FileOp.write p d :: _ =>
    fun q => if q = p then some (d.take j) else runFileOps fs (ops.take k) q
  | _ => runFileOps fs (ops.take k)

/-- Trader._persist_risk_state issues a single direct write of the
serialized state to the risk-state path: no temporary file and no rename
(the source calls write_bytes on the target path inside a try/except that
only logs OSError). -/
def persistRiskStateOps (path : String) (payload : List ℕ) : List FileOp :=
  [FileOp.write path payload]

/-- Spec-side definition for comparison (the claim's protocol): write a
temporary path, then rename it over the target. -/
def persistAtomicSpecOps (path tmp : String) (payload : List ℕ) : List FileOp :=
  [FileOp.write tmp payload, FileOp.rename tmp path]

/-- C2 (amended): every risk-state persist writes the full serialized
state directly to the state-file path — the operation sequence contains
only direct writes to the target and no rename — so an uninterrupted
persist replaces the file contents with the new serialization and touches
no other path, but a persist interrupted mid-write leaves the state file
with a proper prefix of the new bytes (partial content). -/
theorem c2_persist_direct_write_amended (path : String) (payload : List ℕ)
    (fs : String → Option (List ℕ)) :
    runFileOps fs (persistRiskStateOps path payload) path = some payload
    ∧ (∀ q, q ≠ path → runFileOps fs (persistRiskStateOps path payload) q = fs q)
    ∧ (∀ j, runFileOpsInterrupted fs (persistRiskStateOps path payload) 0 j path
        = some (payload.take j))
    ∧ (∀ op ∈ persistRiskStateOps path payload, op = FileOp.write path payload) := by
  refine ⟨?_, ?_, ?_, ?_⟩
  · simp [runFileOps, persistRiskStateOps, applyFileOp]
  · intro q hq
    simp [runFileOps, persistRiskStateOps, applyFileOp, hq]
  · intro j
    simp [runFileOpsInterrupted, persistRiskStateOps, runFileOps]
  · intro op hop
    simpa [persistRiskStateOps] using hop

/-- Witness for C2 (amended) at a concrete path, payload and file system. -/
theorem c2_persist_direct_write_amended_witness :
    runFileOps (fun _ => none) (persistRiskStateOps "risk_state.json" [7, 7]) "risk_state.json"
      = some [7, 7]
    ∧ runFileOps (fun _ => none) (persistRiskStateOps "risk_state.json" [7, 7]) "other"
      = none := by
  have h := c2_persist_direct_write_amended "risk_state.json" [7, 7] (fun _ => none)
  exact ⟨h.1, h.2.1 "other" (by decide)⟩

/-- Counterexample to C2 as stated: the persist operation list is a direct
write (it contains no rename and writes the target path itself), and an
interrupted persist leaves the state file with partial content that is
neither the previously persisted bytes nor the new bytes. -/
theorem c2_counterexample_partial_write :
    runFileOpsInterrupted
        (fun q => if q = "risk_state.json" then some [1, 2, 3] else none)
        (persistRiskStateOps "risk_state.json" [9, 8, 7, 6]) 0 2 "risk_state.json"
      = some [9, 8]
    ∧ (some [9, 8] : Option (List ℕ)) ≠ some [1, 2, 3]
    ∧ (some [9, 8] : Option (List ℕ)) ≠ some [9, 8, 7, 6]
    ∧ (∀ op ∈ persistRiskStateOps "risk_state.json" [9, 8, 7, 6],
        ∀ a b, op ≠ FileOp.rename a b) := by
  refine ⟨by decide, by decide, by decide, ?_⟩
  intro op hop a b
  simp [persistRiskStateOps] at hop
  simp [hop]

/-! ## Strategy state machine (src/strategy/state_machine.py)

Python floats are rationals; math.sqrt, math.erf and the float power used by
the fee formula are abstract function parameters (`RealFuns`), since no
claim under study depends on their numeric values. -/

structure RealFuns where
  sqrtQ : ℚ → ℚ
  erfQ : ℚ → ℚ
  powQ : ℚ → ℚ → ℚ

/-- Metadata dict of a price tick (the keys read by the source). -/
structure PriceMetadata where
  source : String := ""
  feed : String := ""
  market : String := ""
  topic : String := ""
  timestamp : Option ℚ := none

/-- Welford accumulator (RollingStats in the source). -/
structure RollingStats where
  count : ℤ := 0
  mean : ℚ := 0
  m2 : ℚ := 0
deriving Repr, DecidableEq

def RollingStats.add (s : RollingStats) (value : ℚ) : RollingStats :=
  { count := s.count + 1,
    mean := s.mean + (value - s.mean) / ((s.count + 1 : ℤ) : ℚ),
    m2 := s.m2 + (value - s.mean) *
      (value - (s.mean + (value - s.mean) / ((s.count + 1 : ℤ) : ℚ))) }

def RollingStats.remove (s : RollingStats) (value : ℚ) : RollingStats :=
  if s.count ≤ 0 then s
  else if s.count = 1 then { count := 0, mean := 0, m2 := 0 }
  else
    { count := s.count - 1,
      mean := s.mean - (value - s.mean) / ((s.count - 1 : ℤ) : ℚ),
      m2 := max 0 (s.m2 - (value - s.mean) *
        (value - (s.mean - (value - s.mean) / ((s.count - 1 : ℤ) : ℚ)))) }

/-- RollingStats.stddev: sample standard deviation of the accumulated
values (divisor `max 1 (count - 1)`). -/
def RollingStats.stddevQ (funs : RealFuns) (s : RollingStats) : ℚ :=
  if s.count ≤ 0 then 0
  else funs.sqrtQ (s.m2 / ((max 1 (s.count - 1) : ℤ) : ℚ))

def RollingStats.addOpt (s : RollingStats) : Option ℚ → RollingStats
  | some v => RollingStats.add s v
  | none => s

def RollingStats.removeOpt (s : RollingStats) : Option ℚ → RollingStats
  | some v => RollingStats.remove s v
  | none => s

/-- Per-token book snapshot kept by the strategy. -/
structure BookSnapshot where
  bid : Option ℚ := none
  ask : Option ℚ := none
  bid_size : Option ℚ := none
  ask_size : Option ℚ := none
  fill_prob : Option ℚ := none
  bids_levels : List (ℚ × ℚ) := []
  asks_levels : List (ℚ × ℚ) := []
deriving Repr, DecidableEq

/-- Market row (markets/gamma_cache.py UpDownMarket); token metadata is
modelled by its only field the strategy reads, fee_rate_bps. -/
structure UpDownMarket where
  slug : String := ""
  start_epoch : ℤ := 0
  end_epoch : ℤ
  up_token_id : String
  down_token_id : String
  horizon_minutes : ℤ
  category : String := "event"
  token_fee_bps_by_id : List (String × Option ℚ) := []
deriving Repr, DecidableEq

structure Candidate where
  market : UpDownMarket
  direction : String
  token_id : String
  ask : ℚ
  ev : ℚ
  p_hat : ℚ
  fill_prob : ℚ
  fee_cost : ℚ
  slippage_cost : ℚ
  ev_exec : ℚ
  d : ℚ
deriving Repr, DecidableEq

/-- StrategyStateMachine constructor parameters (clamps from __init__ are
applied by mkStrategyConfig below). -/
structure StrategyConfig where
  funs : RealFuns
  threshold : ℚ
  hammer_secs : ℤ
  d_min : ℚ
  max_entry_price : ℚ
  fee_bps : ℚ
  fee_formula_exponent : ℚ := 1
  expected_notional_usd : ℚ := 1
  price_stale_after_seconds : ℚ := 2
  calibrate : ℚ → ℚ := fun v => min 1 (max 0 v)
  calibration_input_z_score : Bool := false
  token_metadata_fee_bps : Option (String → Option ℚ) := none
  rolling_window_seconds : ℤ := 60
  watch_zscore_threshold : ℚ := 0
  watch_mode_expiry_seconds : ℤ := 60

/-- Clamps applied in StrategyStateMachine.__init__. -/
def mkStrategyConfig (cfg : StrategyConfig) : StrategyConfig :=
  { cfg with
      expected_notional_usd := max 0 cfg.expected_notional_usd,
      rolling_window_seconds := max 2 cfg.rolling_window_seconds,
      watch_mode_expiry_seconds := max 1 cfg.watch_mode_expiry_seconds }

/-- Mutable state of StrategyStateMachine (the fields touched by on_price,
on_book and pick_best). -/
structure StrategyState where
  last_price : Option ℚ := none
  watch_mode : Bool := false
  watch_mode_started_at : Option ℤ := none
  start_prices : List (ℤ × ℚ) := []
  start_price_metadata : List (ℤ × (ℚ × ℚ × String)) := []
  last_5m_bucket : Option ℤ := none
  last_15m_bucket : Option ℤ := none
  prices_1s : List (ℤ × ℚ) := []
  rolling_returns : List (Option ℚ) := []
  rolling_return_stats : RollingStats := {}
  sigma1_window_returns : List (Option ℚ) := []
  sigma1_stats : RollingStats := {}
  books : List (String × BookSnapshot) := []
  fill_stats : List (String × List (ℚ × ℚ)) := []
  price_is_stale : Bool := false

/-- utils/price_validation.validate_price_source. -/
def containsChainlink (s : String) : Bool :=
  strContains (strLower s) "chainlink"

def validatePriceSource (md : PriceMetadata) : Bool :=
  containsChainlink (if md.source ≠ "" then md.source else md.feed)
  || containsChainlink md.market || containsChainlink md.topic

/-- Default metadata used when on_price receives none. -/
def resolveMetadata (ts : ℚ) (md : Option PriceMetadata) : PriceMetadata :=
  md.getD { source := "chainlink_rtds", timestamp := some ts }

/-- The staleness gate of on_price: stale by the event clock, or stale by
the wall clock unless a historical replay is detected. -/
def priceTickStale (cfg : StrategyConfig) (ts : ℚ) (md : PriceMetadata) (wallNow : ℚ) : Bool :=
  decide (ts - md.timestamp.getD ts > cfg.price_stale_after_seconds)
  || (!(decide (|wallNow - ts| > cfg.price_stale_after_seconds * 10))
      && decide (wallNow - md.timestamp.getD ts > cfg.price_stale_after_seconds))

def pricesMaxlen (cfg : StrategyConfig) : ℕ :=
  max 120 (2 * cfg.rolling_window_seconds).toNat

/-- The 1-second return appended on a new tick (None when the previous
price is not positive). -/
def latestReturn (prev_price price : ℚ) : Option ℚ :=
  if prev_price > 0 then some (price / prev_price - 1) else none

def sigmaWindowAfterAppend (w : List (Option ℚ)) (r : Option ℚ) : List (Option ℚ) :=
  (if w.length = 60 then w.drop 1 else w) ++ [r]

def sigmaStatsAfterPop (w : List (Option ℚ)) (st : RollingStats) : RollingStats :=
  if w.length = 60 then
    match w.head? with
    | some (some v) => st.remove v
    | _ => st
  else st

/-- Return-window updates performed before the price append (they read the
previous last price). -/
def updateReturnsOnAppend (s : StrategyState) (price : ℚ) : StrategyState :=
  match s.prices_1s.getLast? with
  | none => s
  | some prev =>
    { s with
        rolling_returns := s.rolling_returns ++ [latestReturn prev.2 price],
        rolling_return_stats :=
          RollingStats.addOpt s.rolling_return_stats (latestReturn prev.2 price),
        sigma1_window_returns :=
          sigmaWindowAfterAppend s.sigma1_window_returns (latestReturn prev.2 price),
        sigma1_stats :=
          RollingStats.addOpt (sigmaStatsAfterPop s.sigma1_window_returns s.sigma1_stats)
            (latestReturn prev.2 price) }

/-- The expiry while-loop of on_price: drop leading window entries older
than the cutoff, popping a rolling return (and downdating the Welford
stats) for each dropped price. -/
def expireOldPrices (cutoff : ℤ) :
    List (ℤ × ℚ) → List (Option ℚ) → RollingStats →
      List (ℤ × ℚ) × List (Option ℚ) × RollingStats
  | [], rets, stats => ([], rets, stats)
  | (t, p) :: rest, rets, stats =>
    if t < cutoff then
      match rets with
      | [] => expireOldPrices cutoff rest [] stats
      | r :: rrest => expireOldPrices cutoff rest rrest (stats.removeOpt r)
    else ((t, p) :: rest, rets, stats)

def appendPriceAndExpire (cfg : StrategyConfig) (s : StrategyState) (sec : ℤ) (price : ℚ) :
    StrategyState :=
  match expireOldPrices (sec - cfg.rolling_window_seconds)
      (dequeAppend (pricesMaxlen cfg) s.prices_1s (sec, price))
      s.rolling_returns s.rolling_return_stats with
  | (ps, rets, stats) =>
    { s with prices_1s := ps, rolling_returns := rets, rolling_return_stats := stats }

def updateAnchor5 (s : StrategyState) (sec : ℤ) (price md_ts : ℚ) (md_source : String) :
    StrategyState :=
  if s.last_5m_bucket ≠ some (pyFloorDiv sec 300) then
    { s with last_5m_bucket := some (pyFloorDiv sec 300),
             start_prices := aset s.start_prices 300 price,
             start_price_metadata := aset s.start_price_metadata 300 (price, md_ts, md_source) }
  else s

def updateAnchor15 (s : StrategyState) (sec : ℤ) (price md_ts : ℚ) (md_source : String) :
    StrategyState :=
  if s.last_15m_bucket ≠ some (pyFloorDiv sec 900) then
    { s with last_15m_bucket := some (pyFloorDiv sec 900),
             start_prices := aset s.start_prices 900 price,
             start_price_metadata := aset s.start_price_metadata 900 (price, md_ts, md_source) }
  else s

def setWatchMode (s : StrategyState) (enabled : Bool) (ts : ℤ) : StrategyState :=
  if enabled = s.watch_mode then s
  else { s with watch_mode := enabled,
                watch_mode_started_at := if enabled then some ts else none }

/-- Watch-mode expiry reset: a fresh one-sample price window and empty
return aggregates. -/
def resetAggregates (s : StrategyState) (sec : ℤ) (price : ℚ) : StrategyState :=
  { s with prices_1s := [(sec, price)], rolling_returns := [],
           rolling_return_stats := {}, sigma1_window_returns := [], sigma1_stats := {} }

def rollingAbsRet (first_price price : ℚ) : ℚ :=
  if first_price > 0 then |price / first_price - 1| else 0

def triggerByReturn (cfg : StrategyConfig) (s : StrategyState) (price : ℚ) : Bool :=
  match s.prices_1s.head? with
  | none => false
  | some first => decide (rollingAbsRet first.2 price ≥ cfg.threshold)

def triggerByZscore (cfg : StrategyConfig) (s : StrategyState) : Bool :=
  if cfg.watch_zscore_threshold > 0 then
    match s.rolling_returns.getLast? with
    | some (some latest) =>
      if s.rolling_return_stats.count ≥ 2 then
        if RollingStats.stddevQ cfg.funs s.rolling_return_stats > 0 then
          decide (|(latest - s.rolling_return_stats.mean) /
            RollingStats.stddevQ cfg.funs s.rolling_return_stats| ≥ cfg.watch_zscore_threshold)
        else false
      else false
    | _ => false
  else false

def watchTriggerStep (cfg : StrategyConfig) (s : StrategyState) (sec : ℤ) (price : ℚ) :
    StrategyState :=
  if s.prices_1s.length < 2 then s
  else if triggerByReturn cfg s price || triggerByZscore cfg s then
    (if s.price_is_stale then s else setWatchMode s true sec)
  else s

def onPriceWatchPhase (cfg : StrategyConfig) (s : StrategyState) (sec : ℤ) (price : ℚ) :
    StrategyState :=
  if s.watch_mode then
    match s.watch_mode_started_at with
    | some t0 =>
      if sec - t0 ≥ cfg.watch_mode_expiry_seconds then
        resetAggregates (setWatchMode s false sec) sec price
      else watchTriggerStep cfg s sec price
    | none => watchTriggerStep cfg s sec price
  else watchTriggerStep cfg s sec price

def withLastPrice (s : StrategyState) (price : ℚ) : StrategyState :=
  { s with last_price := some price }

/-- Body of on_price after the source and staleness gates passed. -/
def onPriceFresh (cfg : StrategyConfig) (s : StrategyState) (sec : ℤ) (price md_ts : ℚ)
    (md_source : String) : StrategyState :=
  onPriceWatchPhase cfg
    (updateAnchor15
      (updateAnchor5
        (withLastPrice (appendPriceAndExpire cfg (updateReturnsOnAppend s price) sec price)
          price)
        sec price md_ts md_source)
      sec price md_ts md_source)
    sec price

/-- StrategyStateMachine.on_price; the wall clock is injected. -/
def onPrice (cfg : StrategyConfig) (s : StrategyState) (ts price : ℚ)
    (md? : Option PriceMetadata) (wallNow : ℚ) : StrategyState :=
  if ¬ validatePriceSource (resolveMetadata ts md?) then s
  else if priceTickStale cfg ts (resolveMetadata ts md?) wallNow then
    { s with price_is_stale := true }
  else
    onPriceFresh cfg { s with price_is_stale := false } (pyInt ts) price
      ((resolveMetadata ts md?).timestamp.getD ts) (resolveMetadata ts md?).source

/-- Time-weighted same-ask and total durations over consecutive samples
(the pairwise loop of _estimate_fill_prob). -/
def fillPairTimes : List (ℚ × ℚ) → ℚ × ℚ
  | [] => (0, 0)
  | [_] => (0, 0)
  | (a1, t1) :: (a2, t2) :: rest =>
    match fillPairTimes ((a2, t2) :: rest) with
    | (same, total) =>
      (same + (if a1 = a2 then max 0 (t2 - t1) else 0), total + max 0 (t2 - t1))

/-- Count of consecutive equal-ask pairs (the zero-duration fallback). -/
def fillEqualCount : List (ℚ × ℚ) → ℕ
  | [] => 0
  | [_] => 0
  | (a1, _) :: (a2, t2) :: rest =>
    (if a1 = a2 then 1 else 0) + fillEqualCount ((a2, t2) :: rest)

/-- StrategyStateMachine._estimate_fill_prob: returns the updated sample
deque and the inferred probability (stability clamped to [0.05, 0.95]). -/
def estimateFillProb (samples : List (ℚ × ℚ)) (ask : Option ℚ) (ts : Option ℚ) :
    List (ℚ × ℚ) × Option ℚ :=
  match ask with
  | none => (samples, none)
  | some a =>
    match dequeAppend 50 samples (a, ts.getD (samples.length : ℚ)) with
    | stats =>
      if stats.length < 2 then (stats, some (1 / 2))
      else
        match fillPairTimes stats with
        | (same, total) =>
          if total ≤ 0 then
            (stats, some (min (19/20) (max (1/20)
              ((fillEqualCount stats : ℚ) / ((stats.length : ℚ) - 1)))))
          else (stats, some (min (19/20) (max (1/20) (same / total))))

/-- Side update of a BookSnapshot ladder: an explicit ladder wins;
otherwise a known top price and size yield a one-level ladder. -/
def updatedLevels (given : Option (List (ℚ × ℚ))) (px sz : Option ℚ)
    (old : List (ℚ × ℚ)) : List (ℚ × ℚ) :=
  match given with
  | some l => l
  | none =>
    match px, sz with
    | some p, some s => [(p, s)]
    | _, _ => old

/-- Field merge of on_book into the persistent snapshot (fill_prob is
handled separately). -/
def applyBookFields (snap : BookSnapshot) (bid ask bid_size ask_size : Option ℚ)
    (bids_levels asks_levels : Option (List (ℚ × ℚ))) : BookSnapshot :=
  { bid := bid <|> snap.bid,
    ask := ask <|> snap.ask,
    bid_size := bid_size <|> snap.bid_size,
    ask_size := ask_size <|> snap.ask_size,
    fill_prob := snap.fill_prob,
    bids_levels := updatedLevels bids_levels (bid <|> snap.bid) (bid_size <|> snap.bid_size)
      snap.bids_levels,
    asks_levels := updatedLevels asks_levels (ask <|> snap.ask) (ask_size <|> snap.ask_size)
      snap.asks_levels }

/-- Resolution of the stored fill probability: an explicit value is
clamped to [0, 1]; otherwise the inferred one (when any) is stored. -/
def withFillProb (snap : BookSnapshot) (given inferred : Option ℚ) : BookSnapshot :=
  match given with
  | some f => { snap with fill_prob := some (min 1 (max 0 f)) }
  | none =>
    match inferred with
    | some f => { snap with fill_prob := some f }
    | none => snap

def bookFinish (s : StrategyState) (token_id : String) (snap : BookSnapshot)
    (fill_prob ts : Option ℚ) : StrategyState :=
  match snap.ask with
  | none => { s with books := aset s.books token_id (withFillProb snap fill_prob none) }
  | some a =>
    match estimateFillProb ((aget s.fill_stats token_id).getD []) (some a) ts with
    | (newSamples, inferred) =>
      { s with fill_stats := aset s.fill_stats token_id newSamples,
               books := aset s.books token_id (withFillProb snap fill_prob inferred) }

/-- StrategyStateMachine.on_book. -/
def onBook (s : StrategyState) (token_id : String) (bid ask : Option ℚ)
    (bid_size ask_size fill_prob ts : Option ℚ)
    (bids_levels asks_levels : Option (List (ℚ × ℚ))) : StrategyState :=
  bookFinish s token_id
    (applyBookFields ((aget s.books token_id).getD {}) bid ask bid_size ask_size
      bids_levels asks_levels)
    fill_prob ts

/-- StrategyStateMachine.in_hammer_window. -/
def inHammerWindow (cfg : StrategyConfig) (now_ts end_epoch : ℤ) : Bool :=
  decide (0 ≤ end_epoch - now_ts ∧ end_epoch - now_ts ≤ cfg.hammer_secs)

/-- Radicand of the sqrt in StrategyStateMachine._sigma1 (sample variance
with divisor max(1, count-1), floored at 1e-12). -/
def sigma1Radicand (s : StrategyState) : ℚ :=
  max (s.sigma1_stats.m2 / ((max 1 (s.sigma1_stats.count - 1) : ℤ) : ℚ)) (1 / 10 ^ 12)

/-- StrategyStateMachine._sigma1. -/
def sigma1 (cfg : StrategyConfig) (s : StrategyState) : ℚ :=
  if s.prices_1s.length < 61 then 0
  else if s.sigma1_stats.count ≤ 0 then 0
  else cfg.funs.sqrtQ (sigma1Radicand s)

def lastTickSec (s : StrategyState) : ℤ :=
  match s.prices_1s.getLast? with
  | some tp => tp.1
  | none => 0

/-- The `secs = max(1, end_epoch - int(prices_1s[-1][0]))` of
_candidate_ev. -/
def sigmaSecs (s : StrategyState) (m : UpDownMarket) : ℤ :=
  max 1 (m.end_epoch - lastTickSec s)

/-- The sigma_t of _candidate_ev. -/
def sigmaT (cfg : StrategyConfig) (s : StrategyState) (m : UpDownMarket) : ℚ :=
  sigma1 cfg s * cfg.funs.sqrtQ ((sigmaSecs s m : ℤ) : ℚ)

/-- StrategyStateMachine._normal_cdf. -/
def normalCdf (funs : RealFuns) (x : ℚ) : ℚ :=
  1 / 2 * (1 + funs.erfQ (x / funs.sqrtQ 2))

/-- StrategyStateMachine.vwap_to_fill walk over the ask ladder. -/
def vwapToFillAux (size : ℚ) : List (ℚ × ℚ) → ℚ → ℚ → Option ℚ
  | [], _, _ => none
  | (price, level_size) :: rest, remaining, notional =>
    if price ≤ 0 ∨ level_size ≤ 0 then vwapToFillAux size rest remaining notional
    else if remaining - min remaining level_size ≤ 1 / 10 ^ 12 then
      some ((notional + min remaining level_size * price) / size)
    else
      vwapToFillAux size rest (remaining - min remaining level_size)
        (notional + min remaining level_size * price)

def vwapToFill (size : ℚ) (asks_levels : List (ℚ × ℚ)) : Option ℚ :=
  if size ≤ 0 then none
  else vwapToFillAux size asks_levels size 0

def clampP (ask : ℚ) : ℚ :=
  min (max ask (1 / 10 ^ 9)) (1 - 1 / 10 ^ 9)

/-- StrategyStateMachine._buy_fee_cost_per_share. -/
def buyFeeCostPerShare (cfg : StrategyConfig) (ask fee_rate_bps : ℚ) : ℚ :=
  clampP ask * (fee_rate_bps / 10000) *
    cfg.funs.powQ (clampP ask * (1 - clampP ask)) cfg.fee_formula_exponent

/-- Fee-rate resolution of _candidate_ev: the token-metadata cache first,
then the market row's token metadata; non-negative rates only. -/
def resolveFeeBps (cfg : StrategyConfig) (m : UpDownMarket) (token_id : String) : Option ℚ :=
  match (if token_id ≠ "" then
      match cfg.token_metadata_fee_bps with
      | some cacheGet =>
        match cacheGet token_id with
        | some f => if 0 ≤ f then some f else none
        | none => none
      | none => none
    else none) with
  | some f => some f
  | none =>
    if token_id ≠ "" then
      match aget m.token_fee_bps_by_id token_id with
      | some (some f) => if 0 ≤ f then some f else none
      | _ => none
    else none

def feeCostOf (cfg : StrategyConfig) (m : UpDownMarket) (token_id : String) (ask : ℚ) : ℚ :=
  match resolveFeeBps cfg m token_id with
  | none => cfg.fee_bps / 10000
  | some fb => buyFeeCostPerShare cfg ask fb

def zUp (curr start sigma_t : ℚ) : ℚ :=
  (start - curr) / (curr * sigma_t)

def pUpOf (funs : RealFuns) (curr start sigma_t : ℚ) : ℚ :=
  1 - normalCdf funs (zUp curr start sigma_t)

def pHatOf (cfg : StrategyConfig) (direction : String) (curr start sigma_t : ℚ) : ℚ :=
  if cfg.calibration_input_z_score then
    cfg.calibrate (if direction = "UP" then -(zUp curr start sigma_t) else zUp curr start sigma_t)
  else
    cfg.calibrate (if direction = "UP" then pUpOf cfg.funs curr start sigma_t
      else 1 - pUpOf cfg.funs curr start sigma_t)

def effFillProb (fill_prob : Option ℚ) (can_fill : Bool) : ℚ :=
  if can_fill then
    match fill_prob with
    | none => 1
    | some f => min 1 (max 0 f)
  else 0

def evExecOf (cfg : StrategyConfig) (m : UpDownMarket) (direction : String)
    (ask curr start sigma_t slippage : ℚ) (token_id : String) : ℚ :=
  pHatOf cfg direction curr start sigma_t - ask - feeCostOf cfg m token_id ask - slippage

/-- Tail of _candidate_ev after all early-return filters have passed. -/
def candidateScore (cfg : StrategyConfig) (m : UpDownMarket) (direction : String)
    (ask curr start sigma_t : ℚ) (fill_prob : Option ℚ) (token_id : String)
    (expected_size : Option ℚ) (asks_levels : List (ℚ × ℚ)) : Candidate :=
  match vwapToFill (max 0 (expected_size.getD (cfg.expected_notional_usd / ask)))
      asks_levels with
  | none =>
    { market := m, direction := direction, token_id := "", ask := ask,
      ev := evExecOf cfg m direction ask curr start sigma_t 0 token_id *
        effFillProb fill_prob false,
      p_hat := pHatOf cfg direction curr start sigma_t,
      fill_prob := effFillProb fill_prob false,
      fee_cost := feeCostOf cfg m token_id ask,
      slippage_cost := 0,
      ev_exec := evExecOf cfg m direction ask curr start sigma_t 0 token_id,
      d := |curr - start| }
  | some vwap =>
    { market := m, direction := direction, token_id := "", ask := ask,
      ev := evExecOf cfg m direction ask curr start sigma_t (max 0 (vwap - ask)) token_id *
        effFillProb fill_prob true,
      p_hat := pHatOf cfg direction curr start sigma_t,
      fill_prob := effFillProb fill_prob true,
      fee_cost := feeCostOf cfg m token_id ask,
      slippage_cost := max 0 (vwap - ask),
      ev_exec := evExecOf cfg m direction ask curr start sigma_t (max 0 (vwap - ask)) token_id,
      d := |curr - start| }

/-- StrategyStateMachine._candidate_ev.  The bid and ask_size parameters of
the source are accepted and unused, as in the source. -/
def candidateEv (cfg : StrategyConfig) (s : StrategyState) (m : UpDownMarket)
    (direction : String) (ask : ℚ) (bid ask_size fill_prob : Option ℚ)
    (token_id : String) (expected_size : Option ℚ) (asks_levels : List (ℚ × ℚ)) :
    Option Candidate :=
  match s.last_price with
  | none => none
  | some curr =>
    if ask ≤ 0 then none
    else
      match aget s.start_prices (m.horizon_minutes * 60) with
      | none => none
      | some start =>
        if ask > cfg.max_entry_price then none
        else if |curr - start| ≤ cfg.d_min then none
        else if sigmaT cfg s m ≤ 0 then none
        else some (candidateScore cfg m direction ask curr start (sigmaT cfg s m)
          fill_prob token_id expected_size asks_levels)

def directionTokenPairs (m : UpDownMarket) : List (String × String) :=
  [("UP", m.up_token_id), ("DOWN", m.down_token_id)]

/-- The candidate list accumulated by pick_best, in scan order (markets in
order, UP before DOWN). -/
def pickBestCandidates (cfg : StrategyConfig) (s : StrategyState) (now_ts : ℤ)
    (markets : List UpDownMarket) : List Candidate :=
  (markets.filter (fun m => inHammerWindow cfg now_ts m.end_epoch)).flatMap (fun m =>
    (directionTokenPairs m).filterMap (fun dt =>
      match ((aget s.books dt.2).getD {}).ask with
      | none => none
      | some ask =>
        (candidateEv cfg s m dt.1 ask ((aget s.books dt.2).getD {}).bid
          ((aget s.books dt.2).getD {}).ask_size ((aget s.books dt.2).getD {}).fill_prob
          dt.2 none ((aget s.books dt.2).getD {}).asks_levels).map
          (fun c => { c with token_id := dt.2 })))

/-- Python max(candidates, key=ev): the first candidate attaining the
maximal ev (later candidates replace only on strictly greater ev). -/
def firstMaxByEv : List Candidate → Option Candidate
  | [] => none
  | c :: rest => some (rest.foldl (fun best x => if best.ev < x.ev then x else best) c)

/-- StrategyStateMachine.pick_best (the token_map argument is accepted and
unused, as in the source). -/
def pickBest (cfg : StrategyConfig) (s : StrategyState) (now_ts : ℤ)
    (markets : List UpDownMarket) (token_map : List (String × String)) : Option Candidate :=
  if s.price_is_stale then none
  else firstMaxByEv (pickBestCandidates cfg s now_ts markets)

/-! ## Quorum health (src/strategy/quorum_health.py)

evaluate both returns a decision and mutates the divergence timer, so it is
modelled as returning the pair; Python runtime errors (float division by
zero, statistics.median on an empty list) are modelled as Except errors. -/

structure FeedSample where
  price : ℚ
  payload_ts : ℚ
  received_ts : ℚ
deriving Repr, DecidableEq

structure QuorumDecision where
  trading_allowed : Bool
  reason_codes : List String
  chainlink_stale : Bool
  spot_quorum_divergence_pct : Option ℚ
  feed_lag_seconds : List (String × ℚ)
deriving Repr, DecidableEq

structure QuorumConfig where
  chainlink_max_lag_seconds : ℚ := 5
  spot_max_lag_seconds : ℚ := 5
  divergence_threshold_pct : ℚ := 1 / 2
  divergence_sustain_seconds : ℚ := 5
  min_spot_sources : ℕ := 2

structure QuorumState where
  chainlink_sample : Option FeedSample := none
  spot_samples : List (String × FeedSample) := []
  divergence_started_at : Option ℚ := none

def insertSorted (x : ℚ) : List ℚ → List ℚ
  | [] => [x]
  | y :: rest => if x ≤ y then x :: y :: rest else y :: insertSorted x rest

def sortQ (l : List ℚ) : List ℚ :=
  l.foldr insertSorted []

/-- statistics.median on a non-empty list (callers guard emptiness). -/
def pyMedian (l : List ℚ) : ℚ :=
  if l.length % 2 = 1 then (sortQ l).getD (l.length / 2) 0
  else ((sortQ l).getD (l.length / 2 - 1) 0 + (sortQ l).getD (l.length / 2) 0) / 2

def chainlinkLag (now : ℚ) (cl : FeedSample) : ℚ :=
  max 0 (now - cl.payload_ts)

def spotLags (now : ℚ) (spots : List (String × FeedSample)) : List (String × ℚ) :=
  spots.map (fun fs => (fs.1, max 0 (now - fs.2.payload_ts)))

def freshSpotPrices (cfg : QuorumConfig) (now : ℚ) (spots : List (String × FeedSample)) :
    List ℚ :=
  (spots.filter (fun fs => max 0 (now - fs.2.payload_ts) ≤ cfg.spot_max_lag_seconds)).map
    (fun fs => fs.2.price)

/-- Divergence-timer logic of evaluate step 5: returns the appended reasons
and the new timer value. -/
def divergenceReasonAndTimer (cfg : QuorumConfig) (started : Option ℚ)
    (now divergence_pct : ℚ) : List String × Option ℚ :=
  if divergence_pct ≥ cfg.divergence_threshold_pct then
    match started with
    | none => ([], some now)
    | some t0 =>
      if now - t0 ≥ cfg.divergence_sustain_seconds then
        (["SPOT_DIVERGENCE_SUSTAINED"], some t0)
      else ([], some t0)
  else ([], none)

/-- QuorumHealth.evaluate.  The division computing divergence_pct has no
zero guard in the source: a zero oracle price raises ZeroDivisionError,
modelled as an error value (likewise statistics.median on no fresh spots,
reachable only when min_spot_sources is zero). -/
def evaluateQuorum (cfg : QuorumConfig) (st : QuorumState) (now : ℚ) :
    Except String (QuorumDecision × QuorumState) :=
  match st.chainlink_sample with
  | none =>
    .ok ({ trading_allowed := false, reason_codes := ["CHAINLINK_MISSING"],
           chainlink_stale := true, spot_quorum_divergence_pct := none,
           feed_lag_seconds := [] }, st)
  | some cl =>
    if (freshSpotPrices cfg now st.spot_samples).length < cfg.min_spot_sources then
      .ok ({ trading_allowed := false,
             reason_codes :=
               (if chainlinkLag now cl > cfg.chainlink_max_lag_seconds then
                 ["CHAINLINK_STALE"] else []) ++ ["SPOT_QUORUM_UNAVAILABLE"],
             chainlink_stale := chainlinkLag now cl > cfg.chainlink_max_lag_seconds,
             spot_quorum_divergence_pct := none,
             feed_lag_seconds :=
               ("chainlink", chainlinkLag now cl) :: spotLags now st.spot_samples },
           { st with divergence_started_at := none })
    else if (freshSpotPrices cfg now st.spot_samples).length = 0 then
      .error "statistics_error_empty_median"
    else if cl.price = 0 then
      .error "zero_division_error"
    else
      match divergenceReasonAndTimer cfg st.divergence_started_at now
          (|(cl.price - pyMedian (freshSpotPrices cfg now st.spot_samples)) / cl.price|
            * 100) with
      | (divReasons, newStarted) =>
        .ok ({ trading_allowed :=
                 ((if chainlinkLag now cl > cfg.chainlink_max_lag_seconds then
                   ["CHAINLINK_STALE"] else []) ++ divReasons) = [],
               reason_codes :=
                 (if chainlinkLag now cl > cfg.chainlink_max_lag_seconds then
                   ["CHAINLINK_STALE"] else []) ++ divReasons,
               chainlink_stale := chainlinkLag now cl > cfg.chainlink_max_lag_seconds,
               spot_quorum_divergence_pct :=
                 some (|(cl.price - pyMedian (freshSpotPrices cfg now st.spot_samples))
                   / cl.price| * 100),
               feed_lag_seconds :=
                 ("chainlink", chainlinkLag now cl) :: spotLags now st.spot_samples },
             { st with divergence_started_at := newStarted })

/-! ## Book feed parser (src/feeds/clob_ws.py)

JSON values as a tagged tree; Python float() on strings is modelled by a
plain decimal parser (exponents and special values do not occur in book
frames). -/

inductive JVal where
  | null
  | bool (b : Bool)
  | num (q : ℚ)
  | str (s : String)
  | arr (items : List JVal)
  | obj (fields : List (String × JVal))
deriving Repr

def jgetD (fields : List (String × JVal)) (k : String) : JVal :=
  (aget fields k).getD .null

/-- Python truthiness of a JSON value. -/
def jTruthy : JVal → Bool
  | .null => false
  | .bool b => b
  | .num q => decide (q ≠ 0)
  | .str s => decide (s ≠ "")
  | .arr l => !l.isEmpty
  | .obj l => !l.isEmpty

def pyOr (a b : JVal) : JVal :=
  if jTruthy a then a else b

/-- Python str() restricted to the value shapes that occur as token ids
and event types in book frames. -/
def pyStr : JVal → String
  | .str s => s
  | .null => "None"
  | .bool true => "True"
  | .bool false => "False"
  | .num q => if q.den = 1 then intToStr q.num else "float"
  | .arr _ => "list"
  | .obj _ => "dict"

def parseUnsignedDec? (l : List Char) : Option ℚ :=
  match splitOnCharAux '.' l [] with
  | [ip] => if ip ≠ [] ∧ ip.all Char.isDigit then some ((digitsToNat ip : ℚ)) else none
  | [ip, fp] =>
    if (ip ≠ [] ∨ fp ≠ []) ∧ ip.all Char.isDigit ∧ fp.all Char.isDigit then
      some ((digitsToNat ip : ℚ) + (digitsToNat fp : ℚ) / 10 ^ fp.length)
    else none
  | _ => none

/-- Python float(string) for plain decimal strings. -/
def parseDecimal? (s : String) : Option ℚ :=
  match (strStrip s).data with
  | [] => none
  | '-' :: rest => (parseUnsignedDec? rest).map (fun q => -q)
  | '+' :: rest => parseUnsignedDec? rest
  | l => parseUnsignedDec? l

/-- Python float(x) on a JSON value (None for TypeError/ValueError). -/
def pyFloat? : JVal → Option ℚ
  | .num q => some q
  | .bool b => some (if b then 1 else 0)
  | .str s => parseDecimal? s
  | _ => none

/-- Price/size of one raw ladder entry ([price, size] array or
{price, size} object); None when the entry is skipped. -/
def rawLevel? : JVal → Option (ℚ × ℚ)
  | .arr (a :: b :: _) =>
    match pyFloat? a, pyFloat? b with
    | some p, some s => some (p, s)
    | _, _ => none
  | .obj fields =>
    match pyFloat? (jgetD fields "price"), pyFloat? (jgetD fields "size") with
    | some p, some s => some (p, s)
    | _, _ => none
  | _ => none

def parseLevelsAux (max_levels : ℕ) : List JVal → List (ℚ × ℚ) → List (ℚ × ℚ)
  | [], acc => acc.reverse
  | raw :: rest, acc =>
    match rawLevel? raw with
    | none => parseLevelsAux max_levels rest acc
    | some (p, sz) =>
      if p ≤ 0 ∨ sz ≤ 0 then parseLevelsAux max_levels rest acc
      else if max_levels ≤ acc.length + 1 then ((p, sz) :: acc).reverse
      else parseLevelsAux max_levels rest ((p, sz) :: acc)

/-- CLOBWebSocket._parse_levels. -/
def parseLevels (levels : JVal) (max_levels : ℕ) : List (ℚ × ℚ) :=
  match levels with
  | .arr items => parseLevelsAux max_levels items []
  | _ => []

/-- CLOBWebSocket._extract_price_size. -/
def extractPriceSize : JVal → Option ℚ × Option ℚ
  | .obj fields =>
    match pyFloat? (jgetD fields "price"), pyFloat? (jgetD fields "size") with
    | some p, some s => (some p, some s)
    | _, _ => (none, none)
  | .arr [] => (none, none)
  | .arr (top :: _) =>
    match top with
    | .arr (a :: b :: _) =>
      match pyFloat? a, pyFloat? b with
      | some p, some s => (some p, some s)
      | _, _ => (none, none)
    | .obj fields =>
      match pyFloat? (jgetD fields "price"), pyFloat? (jgetD fields "size") with
      | some p, some s => (some p, some s)
      | _, _ => (none, none)
    | _ => (none, none)
  | _ => (none, none)

/-- Null-coalescing object lookup (dict.get returning None for a JSON
null as well as for a missing key). -/
def jgetNN (fields : List (String × JVal)) (k : String) : Option JVal :=
  match aget fields k with
  | some .null => none
  | v => v

/-- CLOBWebSocket._extract_book_levels. -/
def extractBookLevels (event : List (String × JVal)) : Option JVal × Option JVal :=
  match jgetNN event "book" with
  | some (.obj srcFields) =>
    ((jgetNN srcFields "bids") <|> (jgetNN srcFields "buys"),
     (jgetNN srcFields "asks") <|> (jgetNN srcFields "sells"))
  | _ =>
    ((jgetNN event "bids") <|> (jgetNN event "buys"),
     (jgetNN event "asks") <|> (jgetNN event "sells"))

/-- CLOBWebSocket._event_type. -/
def eventTypeOf (event : List (String × JVal)) : String :=
  match pyOr (jgetD event "event_type") (jgetD event "type") with
  | .null => "unknown"
  | v => pyStr v

def eventTokenId (event : List (String × JVal)) : String :=
  pyStr (pyOr (pyOr (jgetD event "asset_id") (jgetD event "token_id")) (.str ""))

/-- utils/time.normalize_ts. -/
def normalizeTs (v : ℚ) : ℚ :=
  if v > 1000000000000 then v / 1000 else v

def eventTs (event : List (String × JVal)) (wallNow : ℚ) : ℚ :=
  match aget event "timestamp" with
  | none => normalizeTs wallNow
  | some v => normalizeTs ((pyFloat? v).getD 0)

def fillProbOfEvent (event : List (String × JVal)) : Option ℚ :=
  match aget event "fill_prob" with
  | some .null => none
  | some v => pyFloat? v
  | none => none

/-- Emitted book-top record (feeds/clob_ws.py BookTop dataclass). -/
structure BookTop where
  token_id : String
  best_bid : Option ℚ
  best_ask : Option ℚ
  ts : ℚ
  best_bid_size : Option ℚ := none
  best_ask_size : Option ℚ := none
  fill_prob : Option ℚ := none
  bids_levels : Option (List (ℚ × ℚ)) := none
  asks_levels : Option (List (ℚ × ℚ)) := none
deriving Repr, DecidableEq

structure ClobState where
  book_tops : List (String × BookTop) := []
deriving Repr, DecidableEq

/-- The BookTop built by CLOBWebSocket._record_book_top: given sides win,
absent ones persist from the previous snapshot; the ladder fields are not
set (they keep their None defaults). -/
def recordBookTopTop (prev : Option BookTop) (token_id : String)
    (bid ask bid_size ask_size : Option ℚ) (ts : ℚ) : BookTop :=
  { token_id := token_id,
    best_bid := bid <|> prev.bind (fun p => p.best_bid),
    best_ask := ask <|> prev.bind (fun p => p.best_ask),
    best_bid_size := bid_size <|> prev.bind (fun p => p.best_bid_size),
    best_ask_size := ask_size <|> prev.bind (fun p => p.best_ask_size),
    ts := ts }

def recordBookTop (st : ClobState) (token_id : String)
    (bid ask bid_size ask_size : Option ℚ) (ts : ℚ) : ClobState × BookTop :=
  ({ st with
      book_tops :=
        aset st.book_tops token_id
          (recordBookTopTop (aget st.book_tops token_id) token_id bid ask bid_size
            ask_size ts) },
   recordBookTopTop (aget st.book_tops token_id) token_id bid ask bid_size ask_size ts)

/-- The book/snapshot branch of CLOBWebSocket._parse_event (source lines
280-297).  The source computes `bids_levels = self._parse_levels(bids, ...)`
and `asks_levels = self._parse_levels(asks, ...)` into local variables and
then never uses them: the created BookTop keeps bids_levels/asks_levels at
None (top.fill_prob is assigned on the stored record, a Python aliasing
effect modelled by re-storing the updated record). -/
def parseBookSnapshotEvent (depth : ℕ) (st : ClobState) (event : List (String × JVal))
    (wallNow : ℚ) : ClobState × List BookTop :=
  if eventTypeOf event = "book" ∨ eventTypeOf event = "snapshot"
      ∨ eventTypeOf event = "book_snapshot" ∨ eventTypeOf event = "price_snapshot" then
    match extractPriceSize ((extractBookLevels event).1.getD .null),
        extractPriceSize ((extractBookLevels event).2.getD .null) with
    | (bid, bid_size), (ask, ask_size) =>
      if bid = none ∧ ask = none then (st, [])
      else
        match recordBookTop st (eventTokenId event) bid ask bid_size ask_size
            (eventTs event wallNow) with
        | (st2, top) =>
          ({ st2 with
              book_tops :=
                aset st2.book_tops (eventTokenId event)
                  { top with fill_prob := fillProbOfEvent event } },
           [{ top with fill_prob := fillProbOfEvent event }])
  else (st, [])

/-! ## Theorems for the strategy, quorum and parser claims -/

/-- C7: the hammer-window membership test is inclusive on both ends: a
market is inside exactly when 0 ≤ end_epoch − now ≤ hammer_secs; in
particular it is inside at end_epoch − now = 0 (for a non-negative
hammer_secs) and outside at end_epoch − now = −1. -/
theorem c7_hammer_window_inclusive (cfg : StrategyConfig) (now_ts end_epoch : ℤ) :
    (inHammerWindow cfg now_ts end_epoch = true ↔
      0 ≤ end_epoch - now_ts ∧ end_epoch - now_ts ≤ cfg.hammer_secs)
    ∧ (end_epoch - now_ts = -1 → inHammerWindow cfg now_ts end_epoch = false)
    ∧ (0 ≤ cfg.hammer_secs → end_epoch - now_ts = 0 →
        inHammerWindow cfg now_ts end_epoch = true) := by
  refine ⟨by simp [inHammerWindow], ?_, ?_⟩
  · intro h
    simp only [inHammerWindow, h, decide_eq_false_iff_not]
    intro hc
    omega
  · intro hh h
    simp only [inHammerWindow, h, decide_eq_true_eq]
    exact ⟨le_refl 0, hh⟩

/-- Sample strategy configuration (identity stand-ins for the abstract
real-valued functions). -/
def cfgSample : StrategyConfig :=
  { funs := { sqrtQ := fun x => x, erfQ := fun x => x, powQ := fun x _ => x },
    threshold := 1 / 200, hammer_secs := 15, d_min := 1,
    max_entry_price := 99 / 100, fee_bps := 0 }

/-- Witness for C7 at the boundary offsets 0 and −1. -/
theorem c7_hammer_window_inclusive_witness :
    inHammerWindow cfgSample 100 100 = true ∧ inHammerWindow cfgSample 101 100 = false :=
  ⟨(c7_hammer_window_inclusive cfgSample 100 100).2.2 (by decide) (by decide),
   (c7_hammer_window_inclusive cfgSample 101 100).2.1 (by decide)⟩

/-- C10: QuorumHealth.evaluate divides by the oracle price with no zero
guard: with an oracle sample of nonzero price (and a positive
min_spot_sources, which guards the median) evaluate always returns a
decision, while a state with an oracle price of exactly 0 and at least
min_spot_sources fresh spot samples raises a division-by-zero error. -/
theorem c10_quorum_divides_by_oracle_price :
    (∀ (cfg : QuorumConfig) (st : QuorumState) (now : ℚ) (cl : FeedSample),
      st.chainlink_sample = some cl → cl.price ≠ 0 → 1 ≤ cfg.min_spot_sources →
      ∃ d, evaluateQuorum cfg st now = .ok d)
    ∧ evaluateQuorum {}
        { chainlink_sample := some { price := 0, payload_ts := 100, received_ts := 100 },
          spot_samples :=
            [("a", { price := 10, payload_ts := 100, received_ts := 100 }),
             ("b", { price := 11, payload_ts := 100, received_ts := 100 })] } 100
      = .error "zero_division_error" := by
  constructor
  · intro cfg st now cl hcl hp hmin
    unfold evaluateQuorum
    rw [hcl]
    dsimp only
    by_cases h1 : (freshSpotPrices cfg now st.spot_samples).length < cfg.min_spot_sources
    · rw [if_pos h1]
      exact ⟨_, rfl⟩
    · rw [if_neg h1]
      have h2 : ¬ (freshSpotPrices cfg now st.spot_samples).length = 0 := by omega
      rw [if_neg h2, if_neg hp]
      exact ⟨_, rfl⟩
  · have hfresh : freshSpotPrices {} 100
        [("a", { price := 10, payload_ts := 100, received_ts := 100 }),
         ("b", { price := 11, payload_ts := 100, received_ts := 100 })] = [10, 11] := by
      norm_num [freshSpotPrices]
    unfold evaluateQuorum
    rw [hfresh]
    norm_num

/-- Witness for C10 at a concrete state with a nonzero oracle price. -/
theorem c10_quorum_divides_by_oracle_price_witness :
    ∃ d, evaluateQuorum {}
      { chainlink_sample := some { price := 7, payload_ts := 100, received_ts := 100 },
        spot_samples := [] } 100 = .ok d :=
  c10_quorum_divides_by_oracle_price.1 {}
    { chainlink_sample := some { price := 7, payload_ts := 100, received_ts := 100 },
      spot_samples := [] } 100
    { price := 7, payload_ts := 100, received_ts := 100 } rfl (by norm_num) (by decide)

/-- The concrete book snapshot event for C8: a two-level bid ladder mixing
the [price, size] and {price, size} encodings plus non-positive entries,
and a one-level ask ladder. -/
def c8Event : List (String × JVal) :=
  [("event_type", JVal.str "book"),
   ("asset_id", JVal.str "token-a"),
   ("bids", JVal.arr
     [JVal.arr [JVal.num 2, JVal.num 5],
      JVal.obj [("price", JVal.num 1), ("size", JVal.num 2)],
      JVal.arr [JVal.num 0, JVal.num 3],
      JVal.arr [JVal.num 5, JVal.num 0]]),
   ("asks", JVal.arr [JVal.arr [JVal.num 3, JVal.num 4]]),
   ("timestamp", JVal.num 1712345678)]

/-- C8: the parser's ladder extraction accepts both level encodings and
drops non-positive entries, but the BookTop emitted by the book/snapshot
branch does NOT carry the parsed ladders: _parse_levels is computed into
dead local variables and the record keeps bids_levels = asks_levels = None
(the failing input for the claim as stated). -/
theorem c8_snapshot_drops_parsed_ladder :
    parseLevels (jgetD c8Event "bids") 10 = [(2, 5), (1, 2)]
    ∧ parseLevels (jgetD c8Event "asks") 10 = [(3, 4)]
    ∧ (parseBookSnapshotEvent 10 {} c8Event 0).2 =
        [{ token_id := "token-a", best_bid := some 2, best_ask := some 3,
           best_bid_size := some 5, best_ask_size := some 4, ts := 1712345678,
           fill_prob := none, bids_levels := none, asks_levels := none }] := by
  refine ⟨by decide, by decide, by decide⟩

theorem updateReturnsOnAppend_watch_fields (s : StrategyState) (price : ℚ) :
    (updateReturnsOnAppend s price).watch_mode = s.watch_mode
    ∧ (updateReturnsOnAppend s price).watch_mode_started_at = s.watch_mode_started_at := by
  unfold updateReturnsOnAppend
  cases s.prices_1s.getLast? <;> exact ⟨rfl, rfl⟩

theorem appendPriceAndExpire_watch_fields (cfg : StrategyConfig) (s : StrategyState)
    (sec : ℤ) (price : ℚ) :
    (appendPriceAndExpire cfg s sec price).watch_mode = s.watch_mode
    ∧ (appendPriceAndExpire cfg s sec price).watch_mode_started_at
      = s.watch_mode_started_at :=
  ⟨rfl, rfl⟩

theorem withLastPrice_watch_fields (s : StrategyState) (price : ℚ) :
    (withLastPrice s price).watch_mode = s.watch_mode
    ∧ (withLastPrice s price).watch_mode_started_at = s.watch_mode_started_at :=
  ⟨rfl, rfl⟩

theorem updateAnchor5_watch_fields (s : StrategyState) (sec : ℤ) (price mts : ℚ)
    (msrc : String) :
    (updateAnchor5 s sec price mts msrc).watch_mode = s.watch_mode
    ∧ (updateAnchor5 s sec price mts msrc).watch_mode_started_at
      = s.watch_mode_started_at := by
  unfold updateAnchor5
  split <;> exact ⟨rfl, rfl⟩

theorem updateAnchor15_watch_fields (s : StrategyState) (sec : ℤ) (price mts : ℚ)
    (msrc : String) :
    (updateAnchor15 s sec price mts msrc).watch_mode = s.watch_mode
    ∧ (updateAnchor15 s sec price mts msrc).watch_mode_started_at
      = s.watch_mode_started_at := by
  unfold updateAnchor15
  split <;> exact ⟨rfl, rfl⟩

/-- C6: an on_price call with a valid source and a non-stale tick, made
while watch mode is set and at least watch_mode_expiry_seconds past
watch_mode_started_at, clears watch mode (started_at becomes none) and
resets the rolling aggregates: the 1-second price window holds exactly the
current sample and the return windows and Welford accumulators are empty. -/
theorem c6_watch_mode_expiry_reset (cfg : StrategyConfig) (s : StrategyState)
    (ts price : ℚ) (md? : Option PriceMetadata) (wallNow : ℚ) (t0 : ℤ)
    (hval : validatePriceSource (resolveMetadata ts md?) = true)
    (hstale : priceTickStale cfg ts (resolveMetadata ts md?) wallNow = false)
    (hwm : s.watch_mode = true)
    (hts : s.watch_mode_started_at = some t0)
    (hexp : pyInt ts - t0 ≥ cfg.watch_mode_expiry_seconds) :
    (onPrice cfg s ts price md? wallNow).watch_mode = false
    ∧ (onPrice cfg s ts price md? wallNow).watch_mode_started_at = none
    ∧ (onPrice cfg s ts price md? wallNow).prices_1s = [(pyInt ts, price)]
    ∧ (onPrice cfg s ts price md? wallNow).rolling_returns = []
    ∧ (onPrice cfg s ts price md? wallNow).rolling_return_stats = {}
    ∧ (onPrice cfg s ts price md? wallNow).sigma1_window_returns = []
    ∧ (onPrice cfg s ts price md? wallNow).sigma1_stats = {} := by
  have hon : onPrice cfg s ts price md? wallNow =
      onPriceFresh cfg { s with price_is_stale := false } (pyInt ts) price
        ((resolveMetadata ts md?).timestamp.getD ts) (resolveMetadata ts md?).source := by
    unfold onPrice
    rw [if_neg (by simp [hval]), if_neg (by simp [hstale])]
  have hw2 : (updateAnchor15 (updateAnchor5 (withLastPrice
      (appendPriceAndExpire cfg
        (updateReturnsOnAppend { s with price_is_stale := false } price) (pyInt ts) price)
      price) (pyInt ts) price ((resolveMetadata ts md?).timestamp.getD ts)
      (resolveMetadata ts md?).source) (pyInt ts) price
      ((resolveMetadata ts md?).timestamp.getD ts)
      (resolveMetadata ts md?).source).watch_mode = true := by
    rw [(updateAnchor15_watch_fields _ _ _ _ _).1, (updateAnchor5_watch_fields _ _ _ _ _).1,
        (withLastPrice_watch_fields _ _).1, (appendPriceAndExpire_watch_fields _ _ _ _).1,
        (updateReturnsOnAppend_watch_fields _ _).1]
    exact hwm
  have hst2 : (updateAnchor15 (updateAnchor5 (withLastPrice
      (appendPriceAndExpire cfg
        (updateReturnsOnAppend { s with price_is_stale := false } price) (pyInt ts) price)
      price) (pyInt ts) price ((resolveMetadata ts md?).timestamp.getD ts)
      (resolveMetadata ts md?).source) (pyInt ts) price
      ((resolveMetadata ts md?).timestamp.getD ts)
      (resolveMetadata ts md?).source).watch_mode_started_at = some t0 := by
    rw [(updateAnchor15_watch_fields _ _ _ _ _).2, (updateAnchor5_watch_fields _ _ _ _ _).2,
        (withLastPrice_watch_fields _ _).2, (appendPriceAndExpire_watch_fields _ _ _ _).2,
        (updateReturnsOnAppend_watch_fields _ _).2]
    exact hts
  have hfresh : onPriceFresh cfg { s with price_is_stale := false } (pyInt ts) price
      ((resolveMetadata ts md?).timestamp.getD ts) (resolveMetadata ts md?).source =
      resetAggregates (setWatchMode (updateAnchor15 (updateAnchor5 (withLastPrice
        (appendPriceAndExpire cfg
          (updateReturnsOnAppend { s with price_is_stale := false } price) (pyInt ts) price)
        price) (pyInt ts) price ((resolveMetadata ts md?).timestamp.getD ts)
        (resolveMetadata ts md?).source) (pyInt ts) price
        ((resolveMetadata ts md?).timestamp.getD ts)
        (resolveMetadata ts md?).source) false (pyInt ts)) (pyInt ts) price := by
    unfold onPriceFresh onPriceWatchPhase
    rw [if_pos hw2, hst2]
    dsimp only
    rw [if_pos hexp]
  have hsw : (setWatchMode (updateAnchor15 (updateAnchor5 (withLastPrice
      (appendPriceAndExpire cfg
        (updateReturnsOnAppend { s with price_is_stale := false } price) (pyInt ts) price)
      price) (pyInt ts) price ((resolveMetadata ts md?).timestamp.getD ts)
      (resolveMetadata ts md?).source) (pyInt ts) price
      ((resolveMetadata ts md?).timestamp.getD ts)
      (resolveMetadata ts md?).source) false (pyInt ts)).watch_mode = false ∧
      (setWatchMode (updateAnchor15 (updateAnchor5 (withLastPrice
      (appendPriceAndExpire cfg
        (updateReturnsOnAppend { s with price_is_stale := false } price) (pyInt ts) price)
      price) (pyInt ts) price ((resolveMetadata ts md?).timestamp.getD ts)
      (resolveMetadata ts md?).source) (pyInt ts) price
      ((resolveMetadata ts md?).timestamp.getD ts)
      (resolveMetadata ts md?).source) false (pyInt ts)).watch_mode_started_at = none := by
    unfold setWatchMode
    rw [hw2]
    rw [if_neg (by simp)]
    exact ⟨rfl, rfl⟩
  rw [hon, hfresh]
  exact ⟨hsw.1, hsw.2, rfl, rfl, rfl, rfl, rfl⟩

/-- State for the C6 witness: watch mode armed at second 1 with a
two-sample window. -/
def c6SampleState : StrategyState :=
  { watch_mode := true, watch_mode_started_at := some 1,
    last_price := some (1007 / 10),
    prices_1s := [(0, 100), (1, 1007 / 10)],
    rolling_returns := [some (7 / 1000)],
    rolling_return_stats := { count := 1, mean := 7 / 1000, m2 := 0 },
    sigma1_window_returns := [some (7 / 1000)],
    sigma1_stats := { count := 1, mean := 7 / 1000, m2 := 0 },
    last_5m_bucket := some 0, last_15m_bucket := some 0,
    start_prices := [(300, 100), (900, 100)] }

def c6SampleConfig : StrategyConfig :=
  { cfgSample with watch_mode_expiry_seconds := 5 }

/-- Witness for C6: a tick at t = 7, 6 seconds past the watch-mode start
with expiry 5, clears watch mode and resets the windows. -/
theorem c6_watch_mode_expiry_reset_witness :
    (onPrice c6SampleConfig c6SampleState 7 (10071 / 100) none 7).watch_mode = false
    ∧ (onPrice c6SampleConfig c6SampleState 7 (10071 / 100) none 7).watch_mode_started_at
      = none
    ∧ (onPrice c6SampleConfig c6SampleState 7 (10071 / 100) none 7).prices_1s
      = [(pyInt 7, 10071 / 100)]
    ∧ (onPrice c6SampleConfig c6SampleState 7 (10071 / 100) none 7).rolling_returns = []
    ∧ (onPrice c6SampleConfig c6SampleState 7 (10071 / 100) none 7).rolling_return_stats
      = {}
    ∧ (onPrice c6SampleConfig c6SampleState 7 (10071 / 100) none 7).sigma1_window_returns
      = []
    ∧ (onPrice c6SampleConfig c6SampleState 7 (10071 / 100) none 7).sigma1_stats = {} :=
  c6_watch_mode_expiry_reset c6SampleConfig c6SampleState 7 (10071 / 100) none 7 1
    (by decide)
    (by norm_num [priceTickStale, resolveMetadata, c6SampleConfig, cfgSample])
    rfl rfl
    (by decide)

theorem foldl_max_mem (rest : List Candidate) (a : Candidate) :
    rest.foldl (fun best x => if best.ev < x.ev then x else best) a ∈ a :: rest := by
  induction rest generalizing a with
  | nil => exact List.mem_singleton.mpr rfl
  | cons x t ih =>
    rw [List.foldl_cons]
    rcases List.mem_cons.mp (ih (if a.ev < x.ev then x else a)) with h1 | h1
    · rw [h1]
      by_cases hc : a.ev < x.ev
      · rw [if_pos hc]
        exact List.mem_cons_of_mem a (List.mem_cons_self x t)
      · rw [if_neg hc]
        exact List.mem_cons_self a (x :: t)
    · exact List.mem_cons_of_mem a (List.mem_cons_of_mem x h1)

theorem firstMaxByEv_mem {l : List Candidate} {c : Candidate}
    (h : firstMaxByEv l = some c) : c ∈ l := by
  cases l with
  | nil => cases h
  | cons a rest =>
    have hm := foldl_max_mem rest a
    have he : rest.foldl (fun best x => if best.ev < x.ev then x else best) a = c :=
      Option.some.inj h
    exact he ▸ hm

theorem candidateScore_fields (cfg : StrategyConfig) (m : UpDownMarket) (direction : String)
    (ask curr start sigma_t : ℚ) (fill_prob : Option ℚ) (token_id : String)
    (expected_size : Option ℚ) (asks_levels : List (ℚ × ℚ)) :
    (candidateScore cfg m direction ask curr start sigma_t fill_prob token_id expected_size
      asks_levels).market = m
    ∧ (candidateScore cfg m direction ask curr start sigma_t fill_prob token_id expected_size
      asks_levels).direction = direction
    ∧ (candidateScore cfg m direction ask curr start sigma_t fill_prob token_id expected_size
      asks_levels).ask = ask
    ∧ (candidateScore cfg m direction ask curr start sigma_t fill_prob token_id expected_size
      asks_levels).d = |curr - start| := by
  unfold candidateScore
  cases vwapToFill (max 0 (expected_size.getD (cfg.expected_notional_usd / ask)))
    asks_levels <;> exact ⟨rfl, rfl, rfl, rfl⟩

theorem candidateEv_some_props {cfg : StrategyConfig} {s : StrategyState} {m : UpDownMarket}
    {direction : String} {ask : ℚ} {bid ask_size fill_prob : Option ℚ} {token_id : String}
    {expected_size : Option ℚ} {asks_levels : List (ℚ × ℚ)} {c0 : Candidate}
    (h : candidateEv cfg s m direction ask bid ask_size fill_prob token_id expected_size
      asks_levels = some c0) :
    (∃ curr start, s.last_price = some curr
      ∧ aget s.start_prices (m.horizon_minutes * 60) = some start
      ∧ c0.d = |curr - start| ∧ cfg.d_min < c0.d)
    ∧ c0.ask = ask ∧ 0 < ask ∧ ask ≤ cfg.max_entry_price
    ∧ 0 < sigmaT cfg s m ∧ c0.market = m := by
  unfold candidateEv at h
  cases hlp : s.last_price with
  | none => rw [hlp] at h; cases h
  | some curr =>
    rw [hlp] at h
    dsimp only at h
    by_cases h1 : ask ≤ 0
    · rw [if_pos h1] at h; cases h
    · rw [if_neg h1] at h
      cases hsp : aget s.start_prices (m.horizon_minutes * 60) with
      | none => rw [hsp] at h; cases h
      | some start =>
        rw [hsp] at h
        dsimp only at h
        by_cases h2 : ask > cfg.max_entry_price
        · rw [if_pos h2] at h; cases h
        · rw [if_neg h2] at h
          by_cases h3 : |curr - start| ≤ cfg.d_min
          · rw [if_pos h3] at h; cases h
          · rw [if_neg h3] at h
            by_cases h4 : sigmaT cfg s m ≤ 0
            · rw [if_pos h4] at h; cases h
            · rw [if_neg h4] at h
              have hc0 := (Option.some.inj h).symm
              have hf := candidateScore_fields cfg m direction ask curr start
                (sigmaT cfg s m) fill_prob token_id expected_size asks_levels
              refine ⟨⟨curr, start, rfl, rfl, ?_, ?_⟩, ?_, not_le.mp h1, not_lt.mp h2,
                not_le.mp h4, ?_⟩
              · rw [hc0]; exact hf.2.2.2
              · rw [hc0, hf.2.2.2]; exact not_le.mp h3
              · rw [hc0]; exact hf.2.2.1
              · rw [hc0]; exact hf.1

theorem mem_pickBestCandidates_props {cfg : StrategyConfig} {s : StrategyState} {now : ℤ}
    {markets : List UpDownMarket} {c : Candidate}
    (h : c ∈ pickBestCandidates cfg s now markets) :
    inHammerWindow cfg now c.market.end_epoch = true
    ∧ (∃ curr start, s.last_price = some curr
        ∧ aget s.start_prices (c.market.horizon_minutes * 60) = some start
        ∧ c.d = |curr - start| ∧ cfg.d_min < c.d)
    ∧ c.ask ≤ cfg.max_entry_price ∧ 0 < c.ask
    ∧ 0 < sigmaT cfg s c.market := by
  unfold pickBestCandidates at h
  rcases List.mem_flatMap.mp h with ⟨m, hm, hc⟩
  rcases List.mem_filter.mp hm with ⟨_hmem, hham⟩
  rcases List.mem_filterMap.mp hc with ⟨dt, _hdt, heq⟩
  cases hask : ((aget s.books dt.2).getD {}).ask with
  | none => rw [hask] at heq; cases heq
  | some ask =>
    rw [hask] at heq
    dsimp only at heq
    rcases Option.map_eq_some'.mp heq with ⟨c0, hc0, hceq⟩
    have hprops := candidateEv_some_props hc0
    subst hceq
    rcases hprops with ⟨⟨curr, start, hlp, hsp, hd, hdmin⟩, hask0, hpos, hmax, hsig, hmkt⟩
    refine ⟨?_, ⟨curr, start, hlp, ?_, ?_, ?_⟩, ?_, ?_, ?_⟩
    · show inHammerWindow cfg now c0.market.end_epoch = true
      rw [hmkt]
      simpa using hham
    · show aget s.start_prices (c0.market.horizon_minutes * 60) = some start
      rw [hmkt]; exact hsp
    · exact hd
    · exact hdmin
    · show c0.ask ≤ cfg.max_entry_price
      rw [hask0]; exact hmax
    · show 0 < c0.ask
      rw [hask0]; exact hpos
    · show 0 < sigmaT cfg s c0.market
      rw [hmkt]; exact hsig

/-- C3: pick_best returns nothing when the last tick was flagged stale,
and any returned candidate belongs to a market inside the hammer window,
has |last_price − start_price| strictly above d_min, an ask at most
max_entry_price, and a strictly positive σ_T. -/
theorem c3_pick_best_filters :
    (∀ (cfg : StrategyConfig) (s : StrategyState) (now : ℤ)
      (markets : List UpDownMarket) (tmap : List (String × String)),
      s.price_is_stale = true → pickBest cfg s now markets tmap = none)
    ∧ (∀ (cfg : StrategyConfig) (s : StrategyState) (now : ℤ)
      (markets : List UpDownMarket) (tmap : List (String × String)) (c : Candidate),
      pickBest cfg s now markets tmap = some c →
      inHammerWindow cfg now c.market.end_epoch = true
      ∧ (∃ curr start, s.last_price = some curr
          ∧ aget s.start_prices (c.market.horizon_minutes * 60) = some start
          ∧ c.d = |curr - start| ∧ cfg.d_min < c.d)
      ∧ c.ask ≤ cfg.max_entry_price
      ∧ 0 < sigmaT cfg s c.market) := by
  constructor
  · intro cfg s now markets tmap hst
    unfold pickBest
    rw [if_pos hst]
  · intro cfg s now markets tmap c h
    unfold pickBest at h
    split at h
    · cases h
    · have hp := mem_pickBestCandidates_props (firstMaxByEv_mem h)
      exact ⟨hp.1, hp.2.1, hp.2.2.1, hp.2.2.2.2⟩

/-- Configuration for concrete pick_best evaluations (identity stand-ins
for sqrt/erf/pow; threshold high enough that watch-mode never triggers;
d_min negative so a flat market passes the distance filter). -/
def cfgEval : StrategyConfig :=
  { funs := { sqrtQ := fun x => x, erfQ := fun x => x, powQ := fun x _ => x },
    threshold := 1000, hammer_secs := 15, d_min := -1,
    max_entry_price := 9 / 10, fee_bps := 0 }

/-- A strategy state as produced by 61 constant-price ticks at seconds
0..60 (window full, all 60 returns zero), with a book for token tw. -/
def sEval : StrategyState :=
  { last_price := some 1,
    prices_1s := (List.range 61).map (fun i => ((i : ℤ), (1 : ℚ))),
    rolling_returns := List.replicate 60 (some 0),
    rolling_return_stats := { count := 60, mean := 0, m2 := 0 },
    sigma1_window_returns := List.replicate 60 (some 0),
    sigma1_stats := { count := 60, mean := 0, m2 := 0 },
    start_prices := [(300, 1), (900, 1)],
    last_5m_bucket := some 0, last_15m_bucket := some 0,
    books := [("tw", { ask := some (2 / 5), ask_size := some 10, fill_prob := some (1 / 2),
                       asks_levels := [(2 / 5, 10)] })] }

def mW : UpDownMarket :=
  { end_epoch := 60, up_token_id := "tw", down_token_id := "xw", horizon_minutes := 5 }

theorem sEval_sigma1 : sigma1 cfgEval sEval = 1 / 10 ^ 12 := by
  unfold sigma1
  rw [if_neg (by decide), if_neg (by decide)]
  show sigma1Radicand sEval = 1 / 10 ^ 12
  unfold sigma1Radicand
  norm_num [sEval]

theorem sEval_sigmaT : sigmaT cfgEval sEval mW = 1 / 10 ^ 12 := by
  unfold sigmaT
  rw [sEval_sigma1, show sigmaSecs sEval mW = 1 from by decide]
  norm_num [cfgEval]

theorem sEval_candidateEv :
    candidateEv cfgEval sEval mW "UP" (2 / 5) none (some 10) (some (1 / 2)) "tw" none
      [(2 / 5, 10)] =
    some (candidateScore cfgEval mW "UP" (2 / 5) 1 1 (sigmaT cfgEval sEval mW)
      (some (1 / 2)) "tw" none [(2 / 5, 10)]) := by
  unfold candidateEv
  rw [show sEval.last_price = some 1 from rfl]
  dsimp only
  rw [if_neg (by norm_num),
    show aget sEval.start_prices (mW.horizon_minutes * 60) = some 1 from by decide]
  dsimp only
  rw [if_neg (by norm_num [cfgEval]), if_neg (by norm_num [cfgEval]),
    if_neg (by rw [sEval_sigmaT]; norm_num)]

/-- The single candidate pick_best finds in the C3 witness scenario. -/
def c3WitnessCandidate : Candidate :=
  { candidateScore cfgEval mW "UP" (2 / 5) 1 1 (sigmaT cfgEval sEval mW)
      (some (1 / 2)) "tw" none [(2 / 5, 10)] with token_id := "tw" }

theorem sEval_candidates :
    pickBestCandidates cfgEval sEval 60 [mW] = [c3WitnessCandidate] := by
  unfold pickBestCandidates
  rw [show List.filter (fun m => inHammerWindow cfgEval 60 m.end_epoch) [mW] = [mW]
    from by decide]
  simp only [List.flatMap_cons, List.flatMap_nil, List.append_nil]
  rw [show directionTokenPairs mW = [("UP", "tw"), ("DOWN", "xw")] from rfl]
  simp only [List.filterMap_cons, List.filterMap_nil]
  rw [show ((aget sEval.books ("UP", "tw").2).getD {}).ask = some (2 / 5) from rfl]
  rw [show ((aget sEval.books ("DOWN", "xw").2).getD {}).ask = none from rfl]
  dsimp only
  rw [show ((aget sEval.books ("UP", "tw").2).getD {}).bid = none from rfl,
    show ((aget sEval.books ("UP", "tw").2).getD {}).ask_size = some 10 from rfl,
    show ((aget sEval.books ("UP", "tw").2).getD {}).fill_prob = some (1 / 2) from rfl,
    show ((aget sEval.books ("UP", "tw").2).getD {}).asks_levels = [(2 / 5, 10)]
      from rfl]
  rw [sEval_candidateEv]
  rfl

theorem sEval_pickBest :
    pickBest cfgEval sEval 60 [mW] [] = some c3WitnessCandidate := by
  unfold pickBest
  rw [if_neg (by decide), sEval_candidates]
  rfl

/-- Witness for C3: a concrete pick_best call returning a candidate, whose
filter properties follow from the theorem. -/
theorem c3_pick_best_filters_witness :
    inHammerWindow cfgEval 60 c3WitnessCandidate.market.end_epoch = true
    ∧ (∃ curr start, sEval.last_price = some curr
        ∧ aget sEval.start_prices (c3WitnessCandidate.market.horizon_minutes * 60)
          = some start
        ∧ c3WitnessCandidate.d = |curr - start| ∧ cfgEval.d_min < c3WitnessCandidate.d)
    ∧ c3WitnessCandidate.ask ≤ cfgEval.max_entry_price
    ∧ 0 < sigmaT cfgEval sEval c3WitnessCandidate.market :=
  c3_pick_best_filters.2 cfgEval sEval 60 [mW] [] c3WitnessCandidate sEval_pickBest

theorem foldl_max_ge (rest : List Candidate) (a : Candidate) :
    ∀ x ∈ a :: rest,
      x.ev ≤ (rest.foldl (fun best x => if best.ev < x.ev then x else best) a).ev := by
  induction rest generalizing a with
  | nil =>
    intro x hx
    rw [List.mem_singleton.mp hx]
    exact le_refl _
  | cons y t ih =>
    intro x hx
    rw [List.foldl_cons]
    have hstep : a.ev ≤ (if a.ev < y.ev then y else a).ev
        ∧ y.ev ≤ (if a.ev < y.ev then y else a).ev := by
      by_cases hc : a.ev < y.ev
      · rw [if_pos hc]
        exact ⟨le_of_lt hc, le_refl _⟩
      · rw [if_neg hc]
        exact ⟨le_refl _, not_lt.mp hc⟩
    have hhead := ih (if a.ev < y.ev then y else a) _
      (List.mem_cons_self (if a.ev < y.ev then y else a) t)
    rcases List.mem_cons.mp hx with h1 | h1
    · rw [h1]
      exact le_trans hstep.1 hhead
    · rcases List.mem_cons.mp h1 with h2 | h2
      · rw [h2]
        exact le_trans hstep.2 hhead
      · exact ih _ x (List.mem_cons_of_mem _ h2)

theorem foldl_max_first (rest : List Candidate) (a : Candidate) :
    ∃ i, (a :: rest)[i]? =
        some (rest.foldl (fun best x => if best.ev < x.ev then x else best) a)
      ∧ ∀ x ∈ (a :: rest).take i,
        x.ev < (rest.foldl (fun best x => if best.ev < x.ev then x else best) a).ev := by
  induction rest generalizing a with
  | nil =>
    refine ⟨0, rfl, ?_⟩
    intro x hx
    cases hx
  | cons y t ih =>
    rw [List.foldl_cons]
    by_cases hc : a.ev < y.ev
    · rw [if_pos hc]
      rcases ih y with ⟨i, hi, hlt⟩
      refine ⟨i + 1, ?_, ?_⟩
      · simpa using hi
      · intro x hx
        rw [List.take_succ_cons] at hx
        rcases List.mem_cons.mp hx with h1 | h1
        · rw [h1]
          exact lt_of_lt_of_le hc (foldl_max_ge t y y (List.mem_cons_self y t))
        · exact hlt x h1
    · rw [if_neg hc]
      rcases ih a with ⟨i, hi, hlt⟩
      cases i with
      | zero =>
        refine ⟨0, ?_, ?_⟩
        · simpa using hi
        · intro x hx
          cases hx
      | succ k =>
        rw [List.take_succ_cons] at hlt
        refine ⟨k + 2, ?_, ?_⟩
        · rw [List.getElem?_cons_succ, List.getElem?_cons_succ]
          rw [List.getElem?_cons_succ] at hi
          exact hi
        · intro x hx
          rw [List.take_succ_cons, List.take_succ_cons] at hx
          rcases List.mem_cons.mp hx with h1 | h1
          · rw [h1]
            exact hlt a (List.mem_cons_self a (t.take k))
          · rcases List.mem_cons.mp h1 with h2 | h2
            · rw [h2]
              exact lt_of_le_of_lt (not_lt.mp hc) (hlt a (List.mem_cons_self a (t.take k)))
            · exact hlt x (List.mem_cons_of_mem a h2)

/-- C5 (amended): pick_best returns a candidate of maximal EV, and among
candidates sharing the maximal EV it returns the FIRST in scan order
(markets in input order, UP before DOWN within a market) — Python
max(...) keeps the incumbent on ties — not the lexicographically least by
(direction, token_id); the selection is still a deterministic function of
the ordered candidate list. -/
theorem c5_pick_best_first_max_amended (cfg : StrategyConfig) (s : StrategyState)
    (now : ℤ) (markets : List UpDownMarket) (tmap : List (String × String)) (c : Candidate)
    (h : pickBest cfg s now markets tmap = some c) :
    c ∈ pickBestCandidates cfg s now markets
    ∧ (∀ x ∈ pickBestCandidates cfg s now markets, x.ev ≤ c.ev)
    ∧ ∃ i, (pickBestCandidates cfg s now markets)[i]? = some c
        ∧ ∀ x ∈ (pickBestCandidates cfg s now markets).take i, x.ev < c.ev := by
  unfold pickBest at h
  split at h
  · cases h
  · cases hl : pickBestCandidates cfg s now markets with
    | nil =>
      rw [hl] at h
      cases h
    | cons a rest =>
      rw [hl] at h
      have he : rest.foldl (fun best x => if best.ev < x.ev then x else best) a = c :=
        Option.some.inj h
      refine ⟨?_, ?_, ?_⟩
      · rw [← he]
        exact foldl_max_mem rest a
      · intro x hx
        rw [← he]
        exact foldl_max_ge rest a x hx
      · rw [← he]
        exact foldl_max_first rest a

/-- Witness for C5 (amended), at the concrete single-candidate scenario. -/
theorem c5_pick_best_first_max_amended_witness :
    c3WitnessCandidate ∈ pickBestCandidates cfgEval sEval 60 [mW]
    ∧ (∀ x ∈ pickBestCandidates cfgEval sEval 60 [mW], x.ev ≤ c3WitnessCandidate.ev)
    ∧ ∃ i, (pickBestCandidates cfgEval sEval 60 [mW])[i]? = some c3WitnessCandidate
        ∧ ∀ x ∈ (pickBestCandidates cfgEval sEval 60 [mW]).take i,
          x.ev < c3WitnessCandidate.ev :=
  c5_pick_best_first_max_amended cfgEval sEval 60 [mW] [] c3WitnessCandidate sEval_pickBest

/-- State for the C5 counterexample: same full window, books for tokens
ta and tb with a venue fill-probability of zero, forcing an exact EV tie
(ev = ev_exec · 0 = 0) between the two candidates. -/
def s5Eval : StrategyState :=
  { sEval with
      books := [("ta", { ask := some (2 / 5), ask_size := some 10, fill_prob := some 0,
                         asks_levels := [(2 / 5, 10)] }),
                ("tb", { ask := some (2 / 5), ask_size := some 10, fill_prob := some 0,
                         asks_levels := [(2 / 5, 10)] })] }

def m5A : UpDownMarket :=
  { end_epoch := 60, up_token_id := "tb", down_token_id := "xb", horizon_minutes := 5 }

def m5B : UpDownMarket :=
  { end_epoch := 60, up_token_id := "ta", down_token_id := "xa", horizon_minutes := 5 }

theorem s5Eval_sigma1 : sigma1 cfgEval s5Eval = 1 / 10 ^ 12 := by
  unfold sigma1
  rw [if_neg (by decide), if_neg (by decide)]
  show sigma1Radicand s5Eval = 1 / 10 ^ 12
  unfold sigma1Radicand
  norm_num [s5Eval, sEval]

theorem s5Eval_sigmaT_A : sigmaT cfgEval s5Eval m5A = 1 / 10 ^ 12 := by
  unfold sigmaT
  rw [s5Eval_sigma1, show sigmaSecs s5Eval m5A = 1 from by decide]
  norm_num [cfgEval]

theorem s5Eval_sigmaT_B : sigmaT cfgEval s5Eval m5B = 1 / 10 ^ 12 := by
  unfold sigmaT
  rw [s5Eval_sigma1, show sigmaSecs s5Eval m5B = 1 from by decide]
  norm_num [cfgEval]

theorem s5Eval_candidateEv_A :
    candidateEv cfgEval s5Eval m5A "UP" (2 / 5) none (some 10) (some 0) "tb" none
      [(2 / 5, 10)] =
    some (candidateScore cfgEval m5A "UP" (2 / 5) 1 1 (sigmaT cfgEval s5Eval m5A)
      (some 0) "tb" none [(2 / 5, 10)]) := by
  unfold candidateEv
  rw [show s5Eval.last_price = some 1 from rfl]
  dsimp only
  rw [if_neg (by norm_num),
    show aget s5Eval.start_prices (m5A.horizon_minutes * 60) = some 1 from by decide]
  dsimp only
  rw [if_neg (by norm_num [cfgEval]), if_neg (by norm_num [cfgEval]),
    if_neg (by rw [s5Eval_sigmaT_A]; norm_num)]

theorem s5Eval_candidateEv_B :
    candidateEv cfgEval s5Eval m5B "UP" (2 / 5) none (some 10) (some 0) "ta" none
      [(2 / 5, 10)] =
    some (candidateScore cfgEval m5B "UP" (2 / 5) 1 1 (sigmaT cfgEval s5Eval m5B)
      (some 0) "ta" none [(2 / 5, 10)]) := by
  unfold candidateEv
  rw [show s5Eval.last_price = some 1 from rfl]
  dsimp only
  rw [if_neg (by norm_num),
    show aget s5Eval.start_prices (m5B.horizon_minutes * 60) = some 1 from by decide]
  dsimp only
  rw [if_neg (by norm_num [cfgEval]), if_neg (by norm_num [cfgEval]),
    if_neg (by rw [s5Eval_sigmaT_B]; norm_num)]

/-- The two tied candidates, in pick_best scan order. -/
def c5CandA : Candidate :=
  { candidateScore cfgEval m5A "UP" (2 / 5) 1 1 (sigmaT cfgEval s5Eval m5A)
      (some 0) "tb" none [(2 / 5, 10)] with token_id := "tb" }

def c5CandB : Candidate :=
  { candidateScore cfgEval m5B "UP" (2 / 5) 1 1 (sigmaT cfgEval s5Eval m5B)
      (some 0) "ta" none [(2 / 5, 10)] with token_id := "ta" }

theorem s5Eval_candidates :
    pickBestCandidates cfgEval s5Eval 60 [m5A, m5B] = [c5CandA, c5CandB] := by
  unfold pickBestCandidates
  rw [show List.filter (fun m => inHammerWindow cfgEval 60 m.end_epoch) [m5A, m5B]
    = [m5A, m5B] from by decide]
  simp only [List.flatMap_cons, List.flatMap_nil, List.append_nil]
  rw [show directionTokenPairs m5A = [("UP", "tb"), ("DOWN", "xb")] from rfl,
    show directionTokenPairs m5B = [("UP", "ta"), ("DOWN", "xa")] from rfl]
  simp only [List.filterMap_cons, List.filterMap_nil]
  rw [show ((aget s5Eval.books ("UP", "tb").2).getD {}).ask = some (2 / 5) from rfl,
    show ((aget s5Eval.books ("DOWN", "xb").2).getD {}).ask = none from rfl,
    show ((aget s5Eval.books ("UP", "ta").2).getD {}).ask = some (2 / 5) from rfl,
    show ((aget s5Eval.books ("DOWN", "xa").2).getD {}).ask = none from rfl]
  dsimp only
  rw [show ((aget s5Eval.books ("UP", "tb").2).getD {}).bid = none from rfl,
    show ((aget s5Eval.books ("UP", "tb").2).getD {}).ask_size = some 10 from rfl,
    show ((aget s5Eval.books ("UP", "tb").2).getD {}).fill_prob = some 0 from rfl,
    show ((aget s5Eval.books ("UP", "tb").2).getD {}).asks_levels = [(2 / 5, 10)]
      from rfl,
    show ((aget s5Eval.books ("UP", "ta").2).getD {}).bid = none from rfl,
    show ((aget s5Eval.books ("UP", "ta").2).getD {}).ask_size = some 10 from rfl,
    show ((aget s5Eval.books ("UP", "ta").2).getD {}).fill_prob = some 0 from rfl,
    show ((aget s5Eval.books ("UP", "ta").2).getD {}).asks_levels = [(2 / 5, 10)]
      from rfl]
  rw [s5Eval_candidateEv_A, s5Eval_candidateEv_B]
  rfl

theorem c5_vwap_eval :
    vwapToFill (max 0 (cfgEval.expected_notional_usd / (2 / 5))) [(2 / 5, 10)]
      = some (2 / 5) := by
  norm_num [vwapToFill, vwapToFillAux, cfgEval]

theorem c5CandA_ev : c5CandA.ev = 0 := by
  show (candidateScore cfgEval m5A "UP" (2 / 5) 1 1 (sigmaT cfgEval s5Eval m5A)
    (some 0) "tb" none [(2 / 5, 10)]).ev = 0
  unfold candidateScore
  simp only [Option.getD_none]
  rw [c5_vwap_eval]
  dsimp only
  rw [show effFillProb (some 0) true = 0 from by norm_num [effFillProb]]
  exact mul_zero _

theorem c5CandB_ev : c5CandB.ev = 0 := by
  show (candidateScore cfgEval m5B "UP" (2 / 5) 1 1 (sigmaT cfgEval s5Eval m5B)
    (some 0) "ta" none [(2 / 5, 10)]).ev = 0
  unfold candidateScore
  simp only [Option.getD_none]
  rw [c5_vwap_eval]
  dsimp only
  rw [show effFillProb (some 0) true = 0 from by norm_num [effFillProb]]
  exact mul_zero _

theorem s5Eval_pickBest :
    pickBest cfgEval s5Eval 60 [m5A, m5B] [] = some c5CandA := by
  unfold pickBest
  rw [if_neg (by decide), s5Eval_candidates]
  show some (if c5CandA.ev < c5CandB.ev then c5CandB else c5CandA) = some c5CandA
  rw [c5CandA_ev, c5CandB_ev, if_neg (lt_irrefl 0)]

/-- Counterexample to C5 as stated: two candidates tie on EV; pick_best
returns the first in scan order (direction UP, token tb, from the first
market), although the lexicographically least by (direction, token_id) is
the other tied candidate (direction UP, token ta); the character-list
order on token ids is the lexicographic string order. -/
theorem c5_counterexample_first_not_lex_least :
    pickBest cfgEval s5Eval 60 [m5A, m5B] [] = some c5CandA
    ∧ c5CandA.token_id = "tb"
    ∧ c5CandB ∈ pickBestCandidates cfgEval s5Eval 60 [m5A, m5B]
    ∧ c5CandB.ev = c5CandA.ev
    ∧ c5CandB.direction = c5CandA.direction
    ∧ c5CandB.token_id.data < c5CandA.token_id.data
    ∧ c5CandB.token_id ≠ c5CandA.token_id := by
  refine ⟨s5Eval_pickBest, rfl, ?_, ?_, ?_, ?_, ?_⟩
  · rw [s5Eval_candidates]
    exact List.mem_cons_of_mem _ (List.mem_cons_self _ _)
  · rw [c5CandA_ev, c5CandB_ev]
  · show (candidateScore cfgEval m5B "UP" (2 / 5) 1 1 (sigmaT cfgEval s5Eval m5B)
      (some 0) "ta" none [(2 / 5, 10)]).direction =
      (candidateScore cfgEval m5A "UP" (2 / 5) 1 1 (sigmaT cfgEval s5Eval m5A)
      (some 0) "tb" none [(2 / 5, 10)]).direction
    rw [(candidateScore_fields cfgEval m5B "UP" (2 / 5) 1 1 (sigmaT cfgEval s5Eval m5B)
      (some 0) "ta" none [(2 / 5, 10)]).2.1,
      (candidateScore_fields cfgEval m5A "UP" (2 / 5) 1 1 (sigmaT cfgEval s5Eval m5A)
      (some 0) "tb" none [(2 / 5, 10)]).2.1]
  · decide
  · decide

/-- Definition following the specification's words (for comparison with
the source's σ₁): the population variance of a list, dividing the sum of
squared deviations by n. -/
def popVarianceSpec (xs : List ℚ) : ℚ :=
  ((xs.map (fun x => (x - xs.sum / xs.length) ^ 2)).sum) / xs.length

/-- The returns held in the 60-element σ₁ window (None gaps excluded). -/
def windowReturns (s : StrategyState) : List ℚ :=
  s.sigma1_window_returns.reduceOption

theorem welford_foldl_closed (xs : List ℚ) :
    ((xs.foldl RollingStats.add {}).count = xs.length)
    ∧ ((xs.foldl RollingStats.add {}).mean = xs.sum / xs.length)
    ∧ ((xs.foldl RollingStats.add {}).m2
        = (xs.map (fun x => x ^ 2)).sum - xs.sum ^ 2 / xs.length) := by
  induction xs using List.reverseRecOn with
  | nil => exact ⟨rfl, by simp, by simp⟩
  | append_singleton l a ih =>
    rcases ih with ⟨hc, hm, h2⟩
    rw [List.foldl_append, List.foldl_cons, List.foldl_nil]
    rcases eq_or_ne l.length 0 with hn | hn
    · obtain rfl := List.length_eq_zero.mp hn
      refine ⟨rfl, ?_, ?_⟩ <;> simp [RollingStats.add]
    · have hn' : ((l.length : ℚ)) ≠ 0 := Nat.cast_ne_zero.mpr hn
      have hn1 : ((l.length : ℚ)) + 1 ≠ 0 := by positivity
      refine ⟨?_, ?_, ?_⟩
      · simp only [RollingStats.add]
        rw [hc]
        simp only [List.length_append, List.length_cons, List.length_nil]
        push_cast
        ring
      · simp only [RollingStats.add]
        rw [hm, hc]
        simp only [List.sum_append, List.length_append, List.sum_cons, List.sum_nil,
          List.length_cons, List.length_nil]
        push_cast
        field_simp
        ring
      · simp only [RollingStats.add]
        rw [h2, hm, hc]
        simp only [List.map_append, List.sum_append, List.map_cons, List.sum_cons,
          List.map_nil, List.sum_nil, List.length_append, List.length_cons,
          List.length_nil]
        push_cast
        field_simp
        ring

theorem sum_sq_dev_aux (xs : List ℚ) (μ : ℚ) :
    (xs.map (fun x => (x - μ) ^ 2)).sum
      = (xs.map (fun x => x ^ 2)).sum - 2 * μ * xs.sum + xs.length * μ ^ 2 := by
  induction xs with
  | nil => simp
  | cons x t ih =>
    simp only [List.map_cons, List.sum_cons, List.length_cons, ih]
    push_cast
    ring

theorem sum_sq_dev (xs : List ℚ) :
    (xs.map (fun x => (x - xs.sum / xs.length) ^ 2)).sum
      = (xs.map (fun x => x ^ 2)).sum - xs.sum ^ 2 / xs.length := by
  rw [sum_sq_dev_aux]
  rcases eq_or_ne ((xs.length : ℚ)) 0 with hn | hn
  · rw [hn]
    simp
  · field_simp
    ring

theorem sigma1Radicand_of_foldl (s : StrategyState) (xs : List ℚ)
    (hst : s.sigma1_stats = xs.foldl RollingStats.add {}) (hlen : 2 ≤ xs.length) :
    sigma1Radicand s
      = max ((xs.map (fun x => (x - xs.sum / xs.length) ^ 2)).sum
          / ((xs.length : ℚ) - 1)) (1 / 10 ^ 12) := by
  unfold sigma1Radicand
  rw [hst, (welford_foldl_closed xs).1, (welford_foldl_closed xs).2.2, sum_sq_dev,
    show max 1 ((xs.length : ℤ) - 1) = (xs.length : ℤ) - 1 from by omega]
  push_cast
  ring_nf

theorem candidateEv_none_of_sigmaT_nonpos (cfg : StrategyConfig) (s : StrategyState)
    (m : UpDownMarket) (direction : String) (ask : ℚ) (bid ask_size fill_prob : Option ℚ)
    (token_id : String) (expected_size : Option ℚ) (asks_levels : List (ℚ × ℚ))
    (h : sigmaT cfg s m ≤ 0) :
    candidateEv cfg s m direction ask bid ask_size fill_prob token_id expected_size
      asks_levels = none := by
  unfold candidateEv
  cases s.last_price with
  | none => rfl
  | some curr =>
    dsimp only
    split
    · rfl
    · cases aget s.start_prices (m.horizon_minutes * 60) with
      | none => rfl
      | some start =>
        dsimp only
        simp [h]

/-- C4 (amended): σ₁ is computed from the SAMPLE (Bessel-corrected)
variance, not the population variance: the Welford accumulator fed by the
window returns satisfies count = n, mean = Σx/n and m2 = Σx² − (Σx)²/n, and
the radicand of the sqrt in _sigma1 equals
max(Σ(x − x̄)²/(n − 1), 10⁻¹²) — the divisor is n − 1 and the value is
floored at 10⁻¹² (so σ₁ is floored at 10⁻⁶ and never 0 once the window is
full and a return exists); moreover σ_T = σ₁·√(max(1, end_epoch − last
tick second)), and a candidate with σ_T ≤ 0 is always rejected. -/
theorem c4_sigma1_sample_stddev_amended :
    (∀ xs : List ℚ, ((xs.foldl RollingStats.add {}).count = xs.length)
      ∧ ((xs.foldl RollingStats.add {}).mean = xs.sum / xs.length)
      ∧ ((xs.foldl RollingStats.add {}).m2
          = (xs.map (fun x => x ^ 2)).sum - xs.sum ^ 2 / xs.length))
    ∧ (∀ (s : StrategyState) (xs : List ℚ),
        s.sigma1_stats = xs.foldl RollingStats.add {} → 2 ≤ xs.length →
        sigma1Radicand s
          = max ((xs.map (fun x => (x - xs.sum / xs.length) ^ 2)).sum
              / ((xs.length : ℚ) - 1)) (1 / 10 ^ 12))
    ∧ (∀ (cfg : StrategyConfig) (s : StrategyState) (m : UpDownMarket)
        (direction : String) (ask : ℚ) (bid ask_size fill_prob : Option ℚ)
        (token_id : String) (expected_size : Option ℚ) (asks_levels : List (ℚ × ℚ)),
        sigmaT cfg s m ≤ 0 →
        candidateEv cfg s m direction ask bid ask_size fill_prob token_id expected_size
          asks_levels = none) :=
  ⟨welford_foldl_closed, sigma1Radicand_of_foldl, candidateEv_none_of_sigmaT_nonpos⟩

/-- Witness for C4 (amended) at the two-sample window [1, 3]. -/
theorem c4_sigma1_sample_stddev_amended_witness :
    sigma1Radicand { sigma1_stats := ([1, 3] : List ℚ).foldl RollingStats.add {} }
      = max ((([1, 3] : List ℚ).map
          (fun x => (x - ([1, 3] : List ℚ).sum / (([1, 3] : List ℚ).length : ℚ)) ^ 2)).sum
          / ((([1, 3] : List ℚ).length : ℚ) - 1)) (1 / 10 ^ 12) :=
  c4_sigma1_sample_stddev_amended.2.1
    { sigma1_stats := ([1, 3] : List ℚ).foldl RollingStats.add {} } [1, 3] rfl (by decide)


def c4Tick (s : StrategyState) (k : ℕ) : StrategyState :=
  onPrice cfgEval s (k : ℚ) 1 none (k : ℚ)

/-- Common shape of the strategy state reached by the constant-price tick
sequence 0..k (prices pr, n recorded returns, all zero). -/
def c4Core (pr : List (ℤ × ℚ)) (n : ℕ) : StrategyState :=
  { last_price := some 1,
    start_prices := [(300, 1), (900, 1)],
    start_price_metadata := [(300, (1, 0, "chainlink_rtds")), (900, (1, 0, "chainlink_rtds"))],
    last_5m_bucket := some 0,
    last_15m_bucket := some 0,
    prices_1s := pr,
    rolling_returns := List.replicate n (some 0),
    rolling_return_stats := { count := (n : ℤ), mean := 0, m2 := 0 },
    sigma1_window_returns := List.replicate n (some 0),
    sigma1_stats := { count := (n : ℤ), mean := 0, m2 := 0 } }

def c4P (n : ℕ) : List (ℤ × ℚ) :=
  (List.range n).map (fun i => (Int.ofNat i, (1 : ℚ)))

def c4StateAfter (k : ℕ) : StrategyState :=
  c4Core (c4P (k + 1)) k

theorem pyInt_natCast (n : ℕ) : pyInt ((n : ℕ) : ℚ) = (n : ℤ) := by
  unfold pyInt
  rw [if_pos (by positivity)]
  exact (show ((n : ℕ) : ℚ).floor = ⌊((n : ℕ) : ℚ)⌋ from rfl).trans (Int.floor_natCast n)

theorem pyFloorDiv_natCast_lt (m n : ℕ) (h : m < n) :
    pyFloorDiv ((m : ℕ) : ℤ) ((n : ℕ) : ℤ) = 0 := by
  unfold pyFloorDiv
  rw [← Int.ofNat_fdiv, Nat.div_eq_of_lt h]
  rfl

theorem c4_validate (ts : ℚ) :
    validatePriceSource { source := "chainlink_rtds", timestamp := some ts } = true := rfl

theorem c4_not_stale (x : ℚ) :
    priceTickStale cfgEval x { source := "chainlink_rtds", timestamp := some x } x = false := by
  unfold priceTickStale cfgEval
  simp [sub_self]

theorem c4Tick_eq (s : StrategyState) (k : ℕ) :
    c4Tick s k = onPriceFresh cfgEval { s with price_is_stale := false } ((k : ℕ) : ℤ) 1
      ((k : ℕ) : ℚ) "chainlink_rtds" := by
  unfold c4Tick onPrice
  simp only [c4_validate, c4_not_stale, not_true, Bool.false_eq_true, if_false, ite_false,
    pyInt_natCast, resolveMetadata, Option.getD_none, Option.getD_some]

theorem c4_base : c4Tick {} 0 = c4StateAfter 0 := by
  rw [c4Tick_eq]
  rfl

theorem addZeroStats (n : ℤ) :
    RollingStats.add { count := n, mean := 0, m2 := 0 } 0
      = { count := n + 1, mean := 0, m2 := 0 } := by
  unfold RollingStats.add
  simp

theorem c4_latestReturn : latestReturn 1 1 = some 0 := by
  unfold latestReturn
  norm_num

theorem expire_keep (c : ℤ) (l : List (ℤ × ℚ)) (rets : List (Option ℚ))
    (stats : RollingStats) (hc : ∀ tp ∈ l, ¬ tp.1 < c) :
    expireOldPrices c l rets stats = (l, rets, stats) := by
  cases l with
  | nil => rfl
  | cons a rest =>
    obtain ⟨t, p⟩ := a
    simp only [expireOldPrices]
    rw [if_neg (hc (t, p) (List.mem_cons_self _ _))]

theorem c4P_getLast (k : ℕ) : (c4P (k + 1)).getLast? = some (Int.ofNat k, 1) := by
  unfold c4P
  rw [List.range_succ, List.map_append]
  simp

theorem c4P_head (k : ℕ) : (c4P (k + 1)).head? = some (Int.ofNat 0, 1) := by
  unfold c4P
  rw [List.range_succ_eq_map, List.map_cons]
  simp

theorem c4P_length (n : ℕ) : (c4P n).length = n := by
  unfold c4P
  simp

theorem rollingAbsRet_one : rollingAbsRet 1 1 = 0 := by
  unfold rollingAbsRet
  norm_num

theorem c4_stage_returns (k : ℕ) (hk : k ≤ 59) :
    updateReturnsOnAppend (c4StateAfter k) 1 = c4Core (c4P (k + 1)) (k + 1) := by
  unfold updateReturnsOnAppend c4StateAfter
  rw [show (c4Core (c4P (k + 1)) k).prices_1s = c4P (k + 1) from rfl, c4P_getLast]
  dsimp only
  rw [c4_latestReturn]
  unfold c4Core sigmaWindowAfterAppend sigmaStatsAfterPop
  dsimp only
  simp only [List.length_replicate, if_neg (show ¬ k = 60 by omega),
    RollingStats.addOpt, addZeroStats, ← List.replicate_succ']
  push_cast
  rfl

theorem c4_dequeAppend (k : ℕ) (hk : k ≤ 59) :
    dequeAppend (pricesMaxlen cfgEval) (c4P (k + 1)) (((k + 1 : ℕ) : ℤ), 1)
      = c4P (k + 2) := by
  simp only [dequeAppend]
  rw [if_neg (by rw [List.length_append, c4P_length]; dsimp [pricesMaxlen, cfgEval]; omega)]
  unfold c4P
  rw [show List.range (k + 2) = List.range (k + 1) ++ [k + 1] from List.range_succ (k + 1),
    List.map_append]
  rfl

theorem c4_stage_append (k : ℕ) (hk : k ≤ 59) :
    appendPriceAndExpire cfgEval (c4Core (c4P (k + 1)) (k + 1)) ((k + 1 : ℕ) : ℤ) 1
      = c4Core (c4P (k + 2)) (k + 1) := by
  have hmem : ∀ tp ∈ c4P (k + 2), ¬ tp.1 < ((k + 1 : ℕ) : ℤ) - 60 := by
    intro tp htp
    unfold c4P at htp
    simp only [List.mem_map, List.mem_range] at htp
    obtain ⟨i, hi, rfl⟩ := htp
    dsimp only
    rw [Int.ofNat_eq_natCast]
    omega
  unfold appendPriceAndExpire
  rw [show (c4Core (c4P (k + 1)) (k + 1)).prices_1s = c4P (k + 1) from rfl,
    show (c4Core (c4P (k + 1)) (k + 1)).rolling_returns
      = List.replicate (k + 1) (some (0 : ℚ)) from rfl,
    show (c4Core (c4P (k + 1)) (k + 1)).rolling_return_stats
      = { count := ((k + 1 : ℕ) : ℤ), mean := 0, m2 := 0 } from rfl,
    show cfgEval.rolling_window_seconds = (60 : ℤ) from rfl,
    c4_dequeAppend k hk, expire_keep _ _ _ _ hmem]
  rfl

theorem c4_stage_anchor5 (k : ℕ) (hk : k ≤ 59) :
    updateAnchor5 (c4Core (c4P (k + 2)) (k + 1)) ((k + 1 : ℕ) : ℤ) 1 ((k + 1 : ℕ) : ℚ)
      "chainlink_rtds" = c4Core (c4P (k + 2)) (k + 1) := by
  have h300 : pyFloorDiv ((k + 1 : ℕ) : ℤ) 300 = 0 :=
    pyFloorDiv_natCast_lt (k + 1) 300 (by omega)
  unfold updateAnchor5
  rw [if_neg (by
    rw [show (c4Core (c4P (k + 2)) (k + 1)).last_5m_bucket = some 0 from rfl, h300]
    simp)]

theorem c4_stage_anchor15 (k : ℕ) (hk : k ≤ 59) :
    updateAnchor15 (c4Core (c4P (k + 2)) (k + 1)) ((k + 1 : ℕ) : ℤ) 1 ((k + 1 : ℕ) : ℚ)
      "chainlink_rtds" = c4Core (c4P (k + 2)) (k + 1) := by
  have h900 : pyFloorDiv ((k + 1 : ℕ) : ℤ) 900 = 0 :=
    pyFloorDiv_natCast_lt (k + 1) 900 (by omega)
  unfold updateAnchor15
  rw [if_neg (by
    rw [show (c4Core (c4P (k + 2)) (k + 1)).last_15m_bucket = some 0 from rfl, h900]
    simp)]

theorem c4_trigger_return (k : ℕ) :
    triggerByReturn cfgEval (c4Core (c4P (k + 2)) (k + 1)) 1 = false := by
  unfold triggerByReturn
  rw [show (c4Core (c4P (k + 2)) (k + 1)).prices_1s = c4P (k + 2) from rfl, c4P_head]
  dsimp only
  simp only [rollingAbsRet_one]
  rfl

theorem c4_trigger_zscore (k : ℕ) :
    triggerByZscore cfgEval (c4Core (c4P (k + 2)) (k + 1)) = false := rfl

theorem c4_stage_watch (k : ℕ) :
    onPriceWatchPhase cfgEval (c4Core (c4P (k + 2)) (k + 1)) ((k + 1 : ℕ) : ℤ) 1
      = c4Core (c4P (k + 2)) (k + 1) := by
  unfold onPriceWatchPhase
  rw [show (c4Core (c4P (k + 2)) (k + 1)).watch_mode = false from rfl]
  simp only [Bool.false_eq_true, if_false]
  unfold watchTriggerStep
  rw [if_neg (by
    rw [show (c4Core (c4P (k + 2)) (k + 1)).prices_1s = c4P (k + 2) from rfl, c4P_length]
    omega)]
  rw [c4_trigger_return, c4_trigger_zscore]
  simp

theorem c4_step (k : ℕ) (hk : k + 1 ≤ 60) :
    c4Tick (c4StateAfter k) (k + 1) = c4StateAfter (k + 1) := by
  have hk59 : k ≤ 59 := by omega
  rw [c4Tick_eq,
    show ({ c4StateAfter k with price_is_stale := false }) = c4StateAfter k from rfl]
  unfold onPriceFresh
  rw [c4_stage_returns k hk59, c4_stage_append k hk59,
    show withLastPrice (c4Core (c4P (k + 2)) (k + 1)) 1 = c4Core (c4P (k + 2)) (k + 1)
      from rfl,
    c4_stage_anchor5 k hk59, c4_stage_anchor15 k hk59, c4_stage_watch k]
  rfl

def c4Market : UpDownMarket :=
  { end_epoch := 60, up_token_id := "t", down_token_id := "t2", horizon_minutes := 5 }

theorem c4_fold : ∀ n : ℕ, n ≤ 60 →
    (List.range (n + 1)).foldl
      (fun (s : StrategyState) (k : ℕ) => onPrice cfgEval s (k : ℚ) 1 none (k : ℚ)) {}
      = c4StateAfter n := by
  intro n
  induction n with
  | zero => intro _; exact c4_base
  | succ m ih =>
    intro hn
    rw [List.range_succ (m + 1), List.foldl_append, ih (by omega)]
    exact c4_step m hn

theorem c4_windowReturns : windowReturns (c4StateAfter 60) = List.replicate 60 (0 : ℚ) := by
  show (List.replicate 60 (some (0 : ℚ))).reduceOption = _
  decide

theorem c4_popVariance : popVarianceSpec (windowReturns (c4StateAfter 60)) = 0 := by
  rw [c4_windowReturns]
  unfold popVarianceSpec
  simp

theorem c4_sigma1_val : sigma1 cfgEval (c4StateAfter 60) = 1 / 10 ^ 12 := by
  unfold sigma1
  rw [if_neg (by
      rw [show (c4StateAfter 60).prices_1s = c4P (60 + 1) from rfl, c4P_length]
      omega),
    if_neg (by decide)]
  show sigma1Radicand (c4StateAfter 60) = 1 / 10 ^ 12
  unfold sigma1Radicand
  rw [show (c4StateAfter 60).sigma1_stats
      = { count := ((60 : ℕ) : ℤ), mean := 0, m2 := 0 } from rfl]
  norm_num

theorem c4_lastTick : lastTickSec (c4StateAfter 60) = 60 := by
  unfold lastTickSec
  rw [show (c4StateAfter 60).prices_1s = c4P (60 + 1) from rfl, c4P_getLast 60]
  rfl

theorem c4_sigmaSecs : sigmaSecs (c4StateAfter 60) c4Market = 1 := by
  unfold sigmaSecs
  rw [c4_lastTick]
  decide

theorem c4_sigmaT_val : sigmaT cfgEval (c4StateAfter 60) c4Market = 1 / 10 ^ 12 := by
  unfold sigmaT
  rw [c4_sigma1_val, c4_sigmaSecs]
  show 1 / 10 ^ 12 * (((1 : ℤ) : ℚ)) = 1 / 10 ^ 12
  norm_num

theorem c4_candidate_not_rejected :
    candidateEv cfgEval (c4StateAfter 60) c4Market "UP" (1 / 2) none none none "t" none []
      ≠ none := by
  unfold candidateEv
  rw [show (c4StateAfter 60).last_price = some 1 from rfl]
  dsimp only
  rw [if_neg (by norm_num),
    show aget (c4StateAfter 60).start_prices (c4Market.horizon_minutes * 60) = some 1
      from by decide]
  dsimp only
  rw [if_neg (by norm_num [cfgEval]), if_neg (by norm_num [cfgEval]),
    if_neg (by rw [c4_sigmaT_val]; norm_num)]
  simp

/-- C4 counterexample: after the reachable constant-price tick sequence
0..60 (61 fresh chainlink ticks one second apart, price 1) the 60-element
return window holds sixty zero returns, whose population standard
deviation is 0, yet the code's σ₁ is 10⁻⁶ (radicand floored at 10⁻¹²), so
σ₁ is not the population stddev; and at a market ending exactly at the
last tick second (end_epoch − now = 0, where the claim's σ_T = σ₁·√0 = 0
would force rejection) the code uses max(1, ·) seconds, gets σ_T > 0, and
accepts the candidate. -/
theorem c4_counterexample_population_stddev :
    ((List.range 61).foldl
        (fun (s : StrategyState) (k : ℕ) => onPrice cfgEval s (k : ℚ) 1 none (k : ℚ)) {}
        = c4StateAfter 60)
    ∧ popVarianceSpec (windowReturns (c4StateAfter 60)) = 0
    ∧ sigma1 cfgEval (c4StateAfter 60) = 1 / 10 ^ 12
    ∧ sigma1 cfgEval (c4StateAfter 60)
        ≠ cfgEval.funs.sqrtQ (popVarianceSpec (windowReturns (c4StateAfter 60)))
    ∧ c4Market.end_epoch - lastTickSec (c4StateAfter 60) = 0
    ∧ sigmaSecs (c4StateAfter 60) c4Market = 1
    ∧ sigmaT cfgEval (c4StateAfter 60) c4Market = 1 / 10 ^ 12
    ∧ candidateEv cfgEval (c4StateAfter 60) c4Market "UP" (1 / 2) none none none "t" none []
        ≠ none := by
  refine ⟨c4_fold 60 (by omega), c4_popVariance, c4_sigma1_val, ?_, ?_, c4_sigmaSecs,
    c4_sigmaT_val, c4_candidate_not_rejected⟩
  · rw [c4_sigma1_val, show cfgEval.funs.sqrtQ (popVarianceSpec (windowReturns
      (c4StateAfter 60))) = popVarianceSpec (windowReturns (c4StateAfter 60)) from rfl,
      c4_popVariance]
    norm_num
  · rw [c4_lastTick]
    decide


end PolymarketBot
